import Mathlib

/-!
Verification of the report-generation pipeline of `src/Lead-Score.py`
(lead-score-processor).  The Python source is shallowly embedded: payloads
become association lists of JSON-like values, the Python `int(...)`
conversion becomes an `Option Int` parser, fallible extraction code returns
`Except Unit`, and the drawing code is abstracted to the data (table rows,
glyph lists, fallback messages) that it renders.
-/

set_option maxHeartbeats 1000000

namespace LeadScore

/-- A JSON-ish payload value: the fields used by the pipeline hold either
numbers or strings. -/
inductive Value where
| int (n : Int)
| str (s : String)
deriving DecidableEq, Repr

/-- The request payload: a mapping field-name to value (a Python dict
received from JSON; keys are assumed unique, lookup finds the entry). -/
abbrev Payload := List (String × Value)

/-- `field in payload` / `payload[field]`. -/
def lookupField (p : Payload) (k : String) : Option Value :=
  p.lookup k

/-- The whitespace characters stripped by the Python `str.strip()` used on
score fields (space, tab, newline, carriage return, vertical tab, form
feed). -/
def isPyWs (c : Char) : Bool :=
  c = ' ' || c = '\t' || c = '\n' || c = '\r' || c = '\x0B' || c = '\x0C'

/-- `str.strip()` on a character list: drop whitespace from both ends. -/
def stripChars (l : List Char) : List Char :=
  ((l.dropWhile isPyWs).reverse.dropWhile isPyWs).reverse

/-- Numeric value of a digit list, most significant first. -/
def digitsToNat (l : List Char) : Nat :=
  l.foldl (fun a c => a * 10 + (c.toNat - ('0').toNat)) 0

/-- Model of the Python `int(s)` conversion on a string: strip whitespace,
allow an optional sign, then a non-empty run of decimal digits; anything
else raises `ValueError`, modelled as `none`.  (The Python underscore digit
grouping is not modelled; no input of interest uses it.) -/
def pyIntOfChars (l : List Char) : Option Int :=
  match stripChars l with
  | [] => none
  | c :: rest =>
    let signed : Option (Int × List Char) :=
      if c = '-' then some (-1, rest)
      else if c = '+' then some (1, rest)
      else some (1, c :: rest)
    match signed with
    | some (sign, body) =>
      if body = [] then none
      else if body.all Char.isDigit then some (sign * (digitsToNat body : Int))
      else none
    | none => none

/-- Python `int(s)` for a Lean string. -/
def pyInt (s : String) : Option Int :=
  pyIntOfChars s.data

/-- Python `int(v)` on a payload value: identity on numbers, parse on
strings. -/
def intOfValue (v : Value) : Option Int :=
  match v with
  | .int n => some n
  | .str s => pyInt s

/-- `s.split('.')[0]`: everything before the first dot. -/
def takeBeforeDot (s : String) : String :=
  String.mk (s.data.takeWhile (fun c => c ≠ '.'))

/-- Truthiness of `score_text.strip()`. -/
def stripNonempty (s : String) : Bool :=
  stripChars s.data ≠ []

/-- The base (free-text) field to subdomain mapping shared by
`create_concrete_recommendations_report` and
`create_support_overview_report` (`field_mapping`, source lines 854-863 and
1247-1256). -/
def field_mapping : List (String × String) :=
  [ ("Governance_Q1", "Visie op passende zorg"),
    ("Governance_Q2", "Leiderschap en eigenaarschap"),
    ("Structuur_Q1", "Regionale samenwerking"),
    ("Structuur_Q2", "Tools en platforms"),
    ("Proces_Q1", "Patiëntgericht procesontwerp"),
    ("Proces_Q2", "Leren en verbeteren"),
    ("Uitkomsten_en_sturing_Q1", "Outcomegericht werken"),
    ("Uitkomsten_en_sturing_Q2", "Monitoring en besluitvorming") ]

/-- The `numeric_fields` table of `create_concrete_recommendations_report`
(source lines 881-886).  It lists only four of the eight `_Numeric`
fields: the Governance and Proces numeric fields are absent. -/
def numeric_fields_rec : List (String × String) :=
  [ ("Structuur_Q1_Numeric", "Regionale samenwerking"),
    ("Structuur_Q2_Numeric", "Tools en platforms"),
    ("Uitkomsten_en_sturing_Q1_Numeric", "Outcomegericht werken"),
    ("Uitkomsten_en_sturing_Q2_Numeric", "Monitoring en besluitvorming") ]

/-- The `numeric_fields` table of `create_support_overview_report`
(source lines 1268-1277): all eight `_Numeric` fields. -/
def numeric_fields_sup : List (String × String) :=
  [ ("Governance_Q1_Numeric", "Visie op passende zorg"),
    ("Governance_Q2_Numeric", "Leiderschap en eigenaarschap"),
    ("Structuur_Q1_Numeric", "Regionale samenwerking"),
    ("Structuur_Q2_Numeric", "Tools en platforms"),
    ("Proces_Q1_Numeric", "Patiëntgericht procesontwerp"),
    ("Proces_Q2_Numeric", "Leren en verbeteren"),
    ("Uitkomsten_en_sturing_Q1_Numeric", "Outcomegericht werken"),
    ("Uitkomsten_en_sturing_Q2_Numeric", "Monitoring en besluitvorming") ]

/-- `subdomain_scores[subdomain] = score` on a Python dict: overwrite in
place if the key exists (keeping its insertion position), else append. -/
def dictInsert (k : String) (v : Int) : List (String × Int) → List (String × Int)
  | [] => [(k, v)]
  | (k2, v2) :: rest =>
    if k2 = k then (k, v) :: rest else (k2, v2) :: dictInsert k v rest

/-- The first extraction loop of both report builders (source lines
866-878 and 1259-1265): for each base field present in the payload whose
value is a string with non-blank strip, parse `int(text.split('.')[0])`; a
parse failure is the `ValueError` the Python `int` raises, which the
function does not catch.  Non-string values are skipped (the
`elif field.endswith('_Numeric')` branch in the recommendations builder is
dead code: the loop keys never end in `_Numeric`; the support builder has
no such branch). -/
def extractTextScores (p : Payload) :
    List (String × String) → List (String × Int) → Except Unit (List (String × Int))
  | [], acc => .ok acc
  | (field, subdomain) :: rest, acc =>
    match lookupField p field with
    | none => extractTextScores p rest acc
    | some (.int _) => extractTextScores p rest acc
    | some (.str s) =>
      if stripNonempty s then
        match pyInt (takeBeforeDot s) with
        | some score => extractTextScores p rest (dictInsert subdomain score acc)
        | none => .error ()
      else
        extractTextScores p rest acc

/-- The second extraction loop (source lines 888-891 and 1279-1282): for
each listed `_Numeric` field present in the payload, `int(payload[field])`,
overwriting any score from the text loop. -/
def extractNumericScores (p : Payload) :
    List (String × String) → List (String × Int) → Except Unit (List (String × Int))
  | [], acc => .ok acc
  | (field, subdomain) :: rest, acc =>
    match lookupField p field with
    | none => extractNumericScores p rest acc
    | some v =>
      match intOfValue v with
      | some score => extractNumericScores p rest (dictInsert subdomain score acc)
      | none => .error ()

/-- Subdomain-score extraction of `create_concrete_recommendations_report`
(text loop over `field_mapping`, then numeric loop over its incomplete
`numeric_fields` table). -/
def extractRecScores (p : Payload) : Except Unit (List (String × Int)) :=
  match extractTextScores p field_mapping [] with
  | .error e => .error e
  | .ok acc => extractNumericScores p numeric_fields_rec acc

/-- Subdomain-score extraction of `create_support_overview_report`
(text loop, then numeric loop over all eight `_Numeric` fields). -/
def extractSupScores (p : Payload) : Except Unit (List (String × Int)) :=
  match extractTextScores p field_mapping [] with
  | .error e => .error e
  | .ok acc => extractNumericScores p numeric_fields_sup acc

/-- One entry of the `advice_mapping` table. -/
structure AdviceEntry where
  advice : String
  support : String
  support_type : String
deriving DecidableEq, Repr

/-- The static `advice_mapping` of `create_concrete_recommendations_report`
(source lines 894-1015), keyed by (subdomain, score). -/
def advice_mapping : List ((String × Int) × AdviceEntry) :=
  [ (("Visie op passende zorg", 1),
      ⟨"Faciliteer een visie- en inspiratiesessie met stakeholders.",
       "Startsessie of training: visie, netwerk of dashboard opzetten.", "Training"⟩),
    (("Visie op passende zorg", 2),
      ⟨"Vertaal losse ideeën naar een eerste conceptvisie.",
       "Co-creatie workshop: structuur of pilotplan uitwerken.", "Workshop"⟩),
    (("Visie op passende zorg", 3),
      ⟨"Verscherp visie en koppel concrete doelen en termijnen.",
       "Consultancy: concretiseer aanpak en borg werkwijze.", "Consultancy"⟩),
    (("Leiderschap en eigenaarschap", 1),
      ⟨"Benoem een bestuurlijk ambassadeur voor passende zorg.",
       "Startsessie of training: visie, netwerk of dashboard opzetten.", "Training"⟩),
    (("Leiderschap en eigenaarschap", 2),
      ⟨"Betrek bestuur actief bij voortgang en beslismomenten.",
       "Co-creatie workshop: structuur of pilotplan uitwerken.", "Workshop"⟩),
    (("Leiderschap en eigenaarschap", 3),
      ⟨"Geef bestuur formele rol in governance.",
       "Consultancy: concretiseer aanpak en borg werkwijze.", "Consultancy"⟩),
    (("Regionale samenwerking", 1),
      ⟨"Breng partners in kaart en start eerste verkenningsgesprekken.",
       "Startsessie of training: visie, netwerk of dashboard opzetten.", "Training"⟩),
    (("Regionale samenwerking", 2),
      ⟨"Organiseer maandelijks thematisch netwerkoverleg.",
       "Co-creatie workshop: structuur of pilotplan uitwerken.", "Workshop"⟩),
    (("Regionale samenwerking", 3),
      ⟨"Versterk met gezamenlijke doelen en actielijst.",
       "Consultancy: concretiseer aanpak en borg werkwijze.", "Consultancy"⟩),
    (("Tools en platforms", 1),
      ⟨"Start met gedeelde mappen of formats.",
       "Startsessie of training: visie, netwerk of dashboard opzetten.", "Training"⟩),
    (("Tools en platforms", 2),
      ⟨"Verken dashboard-tools of Zoho/PowerBI.",
       "Co-creatie workshop: structuur of pilotplan uitwerken.", "Workshop"⟩),
    (("Tools en platforms", 3),
      ⟨"Versnel ontwikkeling en test actief met gebruikers.",
       "Consultancy: concretiseer aanpak en borg werkwijze.", "Consultancy"⟩),
    (("Patiëntgericht procesontwerp", 1),
      ⟨"Visualiseer de patiëntreis met team of patiëntpanel.",
       "Startsessie of training: visie, netwerk of dashboard opzetten.", "Training"⟩),
    (("Patiëntgericht procesontwerp", 2),
      ⟨"Evalueer pilots en werk verbeterideeën verder uit.",
       "Co-creatie workshop: structuur of pilotplan uitwerken.", "Workshop"⟩),
    (("Patiëntgericht procesontwerp", 3),
      ⟨"Standaardiseer het proces en monitor op resultaat.",
       "Consultancy: concretiseer aanpak en borg werkwijze.", "Consultancy"⟩),
    (("Leren en verbeteren", 1),
      ⟨"Start met reflectie- of verbetermomenten per kwartaal.",
       "Startsessie of training: visie, netwerk of dashboard opzetten.", "Training"⟩),
    (("Leren en verbeteren", 2),
      ⟨"Implementeer eenvoudige PDCA-cyclus op teamniveau.",
       "Co-creatie workshop: structuur of pilotplan uitwerken.", "Workshop"⟩),
    (("Leren en verbeteren", 3),
      ⟨"Borg deze in overleggen en dashboards.",
       "Consultancy: concretiseer aanpak en borg werkwijze.", "Consultancy"⟩),
    (("Outcomegericht werken", 1),
      ⟨"Definieer 2–3 relevante uitkomstindicatoren.",
       "Startsessie of training: visie, netwerk of dashboard opzetten.", "Training"⟩),
    (("Outcomegericht werken", 2),
      ⟨"Maak ze zichtbaar in teamoverleg of dashboard.",
       "Co-creatie workshop: structuur of pilotplan uitwerken.", "Workshop"⟩),
    (("Outcomegericht werken", 3),
      ⟨"Koppel outcome aan proces- en beslisinformatie.",
       "Consultancy: concretiseer aanpak en borg werkwijze.", "Consultancy"⟩),
    (("Monitoring en besluitvorming", 1),
      ⟨"Start met een maandelijks stuurmoment.",
       "Startsessie of training: visie, netwerk of dashboard opzetten.", "Training"⟩),
    (("Monitoring en besluitvorming", 2),
      ⟨"Introduceer KPI-dashboard met kwartaalupdate.",
       "Co-creatie workshop: structuur of pilotplan uitwerken.", "Workshop"⟩),
    (("Monitoring en besluitvorming", 3),
      ⟨"Train teams in gebruik en interpretatie.",
       "Consultancy: concretiseer aanpak en borg werkwijze.", "Consultancy"⟩) ]

/-- One entry of the `support_mapping` table. -/
structure SupportEntry where
  support_type : String
  description : String
deriving DecidableEq, Repr

/-- The static `support_mapping` of `create_support_overview_report`
(source lines 1285-1382), keyed by (subdomain, score). -/
def support_mapping : List ((String × Int) × SupportEntry) :=
  [ (("Visie op passende zorg", 1),
      ⟨"Training", "Startsessie of training: visie, netwerk of dashboard opzetten."⟩),
    (("Visie op passende zorg", 2),
      ⟨"Workshop", "Co-creatie workshop: structuur of pilotplan uitwerken."⟩),
    (("Visie op passende zorg", 3),
      ⟨"Consultancy", "Consultancy: concretiseer aanpak en borg werkwijze."⟩),
    (("Leiderschap en eigenaarschap", 1),
      ⟨"Training", "Startsessie of training: visie, netwerk of dashboard opzetten."⟩),
    (("Leiderschap en eigenaarschap", 2),
      ⟨"Workshop", "Co-creatie workshop: structuur of pilotplan uitwerken."⟩),
    (("Leiderschap en eigenaarschap", 3),
      ⟨"Consultancy", "Consultancy: concretiseer aanpak en borg werkwijze."⟩),
    (("Regionale samenwerking", 1),
      ⟨"Training", "Startsessie of training: visie, netwerk of dashboard opzetten."⟩),
    (("Regionale samenwerking", 2),
      ⟨"Workshop", "Co-creatie workshop: structuur of pilotplan uitwerken."⟩),
    (("Regionale samenwerking", 3),
      ⟨"Consultancy", "Consultancy: concretiseer aanpak en borg werkwijze."⟩),
    (("Tools en platforms", 1),
      ⟨"Training", "Startsessie of training: visie, netwerk of dashboard opzetten."⟩),
    (("Tools en platforms", 2),
      ⟨"Workshop", "Co-creatie workshop: structuur of pilotplan uitwerken."⟩),
    (("Tools en platforms", 3),
      ⟨"Consultancy", "Consultancy: concretiseer aanpak en borg werkwijze."⟩),
    (("Patiëntgericht procesontwerp", 1),
      ⟨"Training", "Startsessie of training: visie, netwerk of dashboard opzetten."⟩),
    (("Patiëntgericht procesontwerp", 2),
      ⟨"Workshop", "Co-creatie workshop: structuur of pilotplan uitwerken."⟩),
    (("Patiëntgericht procesontwerp", 3),
      ⟨"Consultancy", "Consultancy: concretiseer aanpak en borg werkwijze."⟩),
    (("Leren en verbeteren", 1),
      ⟨"Training", "Startsessie of training: visie, netwerk of dashboard opzetten."⟩),
    (("Leren en verbeteren", 2),
      ⟨"Workshop", "Co-creatie workshop: structuur of pilotplan uitwerken."⟩),
    (("Leren en verbeteren", 3),
      ⟨"Consultancy", "Consultancy: concretiseer aanpak en borg werkwijze."⟩),
    (("Outcomegericht werken", 1),
      ⟨"Training", "Startsessie of training: visie, netwerk of dashboard opzetten."⟩),
    (("Outcomegericht werken", 2),
      ⟨"Workshop", "Co-creatie workshop: structuur of pilotplan uitwerken."⟩),
    (("Outcomegericht werken", 3),
      ⟨"Consultancy", "Consultancy: concretiseer aanpak en borg werkwijze."⟩),
    (("Monitoring en besluitvorming", 1),
      ⟨"Training", "Startsessie of training: visie, netwerk of dashboard opzetten."⟩),
    (("Monitoring en besluitvorming", 2),
      ⟨"Workshop", "Co-creatie workshop: structuur of pilotplan uitwerken."⟩),
    (("Monitoring en besluitvorming", 3),
      ⟨"Consultancy", "Consultancy: concretiseer aanpak en borg werkwijze."⟩) ]

/-- `(subdomain, score) in advice_mapping` plus its lookup. -/
def lookupAdvice (sd : String) (sc : Int) : Option AdviceEntry :=
  advice_mapping.lookup (sd, sc)

/-- `(subdomain, score) in support_mapping` plus its lookup. -/
def lookupSupport (sd : String) (sc : Int) : Option SupportEntry :=
  support_mapping.lookup (sd, sc)

/-- `domain_mapping` (source lines 1025-1034). -/
def domain_mapping : List (String × String) :=
  [ ("Visie op passende zorg", "Governance"),
    ("Leiderschap en eigenaarschap", "Governance"),
    ("Regionale samenwerking", "Structuur"),
    ("Tools en platforms", "Structuur"),
    ("Patiëntgericht procesontwerp", "Proces"),
    ("Leren en verbeteren", "Proces"),
    ("Outcomegericht werken", "Uitkomsten & sturing"),
    ("Monitoring en besluitvorming", "Uitkomsten & sturing") ]

/-- One data row of the concrete-recommendations table. -/
structure Recommendation where
  subdomain : String
  domain : String
  score : Int
  advice : String
  support : String
  support_type : String
deriving DecidableEq, Repr

/-- The at-risk filter of `create_concrete_recommendations_report` (source
lines 1036-1048): keep subdomains with `score <= 3` that have an
`advice_mapping` entry, in subdomain-dict order. -/
def buildRecommendations : List (String × Int) → List Recommendation
  | [] => []
  | (sd, sc) :: rest =>
    (if sc ≤ (3 : Int) then
      match lookupAdvice sd sc with
      | some e =>
        [Recommendation.mk sd ((domain_mapping.lookup sd).getD "") sc
          e.advice e.support e.support_type]
      | none => []
     else []) ++ buildRecommendations rest

/-- One data row of the support-overview table. -/
structure SupportRow where
  subdomain : String
  support_type : String
  description : String
  score : Int
deriving DecidableEq, Repr

/-- The at-risk filter of `create_support_overview_report` (source lines
1385-1395). -/
def buildSupportRows : List (String × Int) → List SupportRow
  | [] => []
  | (sd, sc) :: rest =>
    (if sc ≤ (3 : Int) then
      match lookupSupport sd sc with
      | some e => [SupportRow.mk sd e.support_type e.description sc]
      | none => []
     else []) ++ buildSupportRows rest

/-- The rendered artifact of a recommendations/support table: either the
congratulatory fallback image (no data rows) or a table with the given
rows. -/
inductive Artifact (ρ : Type) where
| fallback (msg : String)
| table (rows : List ρ)
deriving DecidableEq, Repr

/-- Fallback text of the recommendations renderer (source line 1055). -/
def recFallbackMsg : String :=
  "Gefeliciteerd! Alle scores zijn hoger dan 3.\nGeen concrete aanbevelingen nodig."

/-- Fallback text of the support renderer (source line 1402). -/
def supFallbackMsg : String :=
  "Gefeliciteerd! Alle scores zijn hoger dan 3.\nGeen ondersteuning nodig."

/-- `create_concrete_recommendations_report`, abstracted to the data it
renders: extract scores (any `int(...)` failure raises out of the
function), filter at-risk rows, and render either the congratulatory
fallback or the table. -/
def create_concrete_recommendations_report (p : Payload) :
    Except Unit (Artifact Recommendation) :=
  match extractRecScores p with
  | .error e => .error e
  | .ok scores =>
    let recs := buildRecommendations scores
    if recs = [] then .ok (.fallback recFallbackMsg) else .ok (.table recs)

/-- `create_support_overview_report`, abstracted likewise. -/
def create_support_overview_report (p : Payload) :
    Except Unit (Artifact SupportRow) :=
  match extractSupScores p with
  | .error e => .error e
  | .ok scores =>
    let rows := buildSupportRows scores
    if rows = [] then .ok (.fallback supFallbackMsg) else .ok (.table rows)

/-- `get_transitiefase` (source lines 1961-1978). -/
def get_transitiefase (total_sum : Int) : String :=
  if 0 ≤ total_sum ∧ total_sum ≤ 14 then "Startfase"
  else if 15 ≤ total_sum ∧ total_sum ≤ 22 then "Aan de slag"
  else if 23 ≤ total_sum ∧ total_sum ≤ 30 then "Op de kaart"
  else if 31 ≤ total_sum ∧ total_sum ≤ 36 then "In control"
  else if 37 ≤ total_sum ∧ total_sum ≤ 40 then "Voorloper"
  else "Onbekend"

/-- One maturity phase of the `phases` table in
`create_score_breakdown_chart` (source lines 1615-1621). -/
structure Phase where
  name : String
  range : String
  description : String
  focus : String
  color : String
deriving DecidableEq, Repr

/-- The `phases` table (source lines 1615-1621; the emoji column is
omitted, it carries no logic). -/
def phases : List Phase :=
  [ ⟨"Startfase", "(0-14 pnt)", "Eerste bewustwording, nog geen structuur",
      "Begrip en taal ontwikkelen", "#FFCDD2"⟩,
    ⟨"Aan de slag", "(15-22 pnt)", "Initiatieven starten, weinig samenhang",
      "Richting en partners bepalen", "#FFE0B2"⟩,
    ⟨"Op de kaart", "(23-30 pnt)", "Structuur, rollen en data zijn aanwezig",
      "Governance en procesafspraken", "#DCEDC8"⟩,
    ⟨"In control", "(31-36 pnt)", "Sturing op uitkomsten en processen",
      "PDCA-cyclus en datasturing", "#C8E6C9"⟩,
    ⟨"Voorloper", "(37-40 pnt)", "Passende zorg is geborgd en opgeschaald",
      "Leren, waardesturing, opschaling", "#A5D6A7"⟩ ]

/-- The phase-index selection of `create_score_breakdown_chart` (source
lines 1624-1634, repeated at 1725-1733). -/
def current_phase (total_score : Int) : Nat :=
  if 37 ≤ total_score then 4
  else if 31 ≤ total_score then 3
  else if 23 ≤ total_score then 2
  else if 15 ≤ total_score then 1
  else 0

/-- The star/circle glyphs produced by `generate_star_rating` together
with the normalized 0-5 score shown in its textual suffix. -/
structure StarRating where
  glyphs : List Char
  normalized : ℚ
deriving DecidableEq, Repr

/-- Python `int(q)` truncates toward zero. -/
def pyTrunc (q : ℚ) : Int :=
  if 0 ≤ q then ⌊q⌋ else ⌈q⌉

/-- `generate_star_rating` (source lines 493-519): normalize the 0-10
domain score to 0-5, emit `int(normalized)` filled circles, a half circle
when the remainder is at least one half, and empty circles up to five.
(The Python string multiplication by a negative count yields the empty
string; `Int.toNat` models that.)  The trailing `" (n.n/5)"` label is
carried as the `normalized` field. -/
def generate_star_rating (score : ℚ) : StarRating :=
  let normalized_score : ℚ := score / 10 * 5
  let full_circles : Int := pyTrunc normalized_score
  let remainder : ℚ := normalized_score - full_circles
  let half_circle : Int := if (1 : ℚ)/2 ≤ remainder then 1 else 0
  let empty_circles : Int := 5 - full_circles - half_circle
  ⟨List.replicate full_circles.toNat '●'
     ++ List.replicate half_circle.toNat '◐'
     ++ List.replicate empty_circles.toNat '○',
   normalized_score⟩

/-- The `keywords` table of `get_lowest_scoring_domains` (source lines
1987-1996). -/
def keywords : List (String × String) :=
  [ ("Governance_Q1_Numeric", "Visie"),
    ("Governance_Q2_Numeric", "Leiderschap"),
    ("Structuur_Q1_Numeric", "Samenwerking"),
    ("Structuur_Q2_Numeric", "Tools"),
    ("Proces_Q1_Numeric", "Patiëntgericht"),
    ("Proces_Q2_Numeric", "Leren"),
    ("Uitkomsten_en_sturing_Q1_Numeric", "Uitkomsten"),
    ("Uitkomsten_en_sturing_Q2_Numeric", "Data") ]

/-- `int(payload.get(key, 0))`: absent fields default to 0, present fields
go through the Python `int` conversion, which raises on bad input. -/
def getScoreD (p : Payload) (k : String) : Except Unit Int :=
  match lookupField p k with
  | none => .ok 0
  | some v =>
    match intOfValue v with
    | some n => .ok n
    | none => .error ()

/-- `", ".join(...)`. -/
def joinComma : List String → String
  | [] => ""
  | [x] => x
  | x :: rest => x ++ ", " ++ joinComma rest

/-- The accumulation loop of `get_lowest_scoring_domains` (source lines
1998-2003). -/
def lowestScoringAux (p : Payload) :
    List (String × String) → List String → Except Unit (List String)
  | [], acc => .ok acc
  | (key, keyword) :: rest, acc =>
    match getScoreD p key with
    | .error e => .error e
    | .ok score =>
      if score = 1 ∨ score = 2 then
        lowestScoringAux p rest (acc ++ [keyword ++ ": " ++ toString score])
      else
        lowestScoringAux p rest acc

/-- `get_lowest_scoring_domains` (source lines 1980-2003). -/
def get_lowest_scoring_domains (p : Payload) : Except Unit String :=
  match lowestScoringAux p keywords [] with
  | .error e => .error e
  | .ok low => .ok (if low = [] then "Geen lage scores" else joinComma low)

/-- Modelled from the claim wording (C10), for comparison with
`get_lowest_scoring_domains`: exactly the subdomains whose score equals 1
or 2, rendered `"<Keyword>: <score>"` in the fixed field order, joined with
`", "`, with the `"Geen lage scores"` fallback. -/
def lowestDomainsSpec (score : String → Int) : String :=
  let low := (keywords.filter (fun kv => score kv.1 = 1 ∨ score kv.1 = 2)).map
    (fun kv => kv.2 ++ ": " ++ toString (score kv.1))
  if low = [] then "Geen lage scores" else joinComma low

/-! ### Document composition and placeholder substitution (slide skipping) -/

/-- The slide indices written by `add_charts_to_slides` (source lines
364-387), in processing order: slide 4 gets the maturity chart, 5 the
domain table, 6 the subdomain table and radar chart, 7 the recommendations
table, 8 the support overview. -/
def chart_slide_targets : List Nat := [3, 4, 5, 6, 7]

/-- The slide indices of the `slide_replacements` dict in
`replace_placeholders` (source lines 2023-2039), in iteration order. -/
def placeholder_slide_targets : List Nat := [0, 3, 8]

/-- The shared slide-visiting pattern of `add_charts_to_slides`
(`if len(presentation.slides) > i:`) and `replace_placeholders`
(`if slide_index < len(presentation.slides):`): visit each target index
that exists, mutate that slide, silently skip targets beyond the slide
count.  Slides are abstract; `f i` is the per-slide mutation. -/
def processSlides {α : Type} (targets : List Nat) (slides : List α)
    (f : Nat → α → α) : List α :=
  targets.foldl
    (fun acc i => if h : i < acc.length then acc.set i (f i (acc.get ⟨i, h⟩)) else acc)
    slides

/-- `add_charts_to_slides` on the abstract slide list. -/
def add_charts_to_slides {α : Type} (slides : List α) (render : Nat → α → α) : List α :=
  processSlides chart_slide_targets slides render

/-- The slide loop of `replace_placeholders` on the abstract slide list. -/
def replace_placeholders_slides {α : Type} (slides : List α)
    (subst : Nat → α → α) : List α :=
  processSlides placeholder_slide_targets slides subst

/-- Python `str(v)` on a payload value. -/
def strOfValue (v : Value) : String :=
  match v with
  | .int n => toString n
  | .str s => s

/-- `payload.get(key, default)` coerced to the string used in a
replacement (the fields concerned hold strings in practice). -/
def getStrD (p : Payload) (k d : String) : String :=
  match lookupField p k with
  | none => d
  | some v => strOfValue v

/-- `str.strip()` on a string. -/
def stripStr (s : String) : String :=
  String.mk (stripChars s.data)

/-- The replacement-value preparation and `slide_replacements` table of
`replace_placeholders` (source lines 2010-2039).  `report_date` stands for
the externally supplied `datetime.now().strftime`; `int(total_sum)` and
`get_lowest_scoring_domains` may raise. -/
def slide_replacements (p : Payload) (report_date : String) :
    Except Unit (List (Nat × List (String × String))) :=
  let organization := getStrD p "Organization" ""
  let first_name := getStrD p "First_Name" ""
  let last_name := getStrD p "Last_Name" ""
  let respondent_name := stripStr (first_name ++ " " ++ last_name)
  let total_sum : Value := (lookupField p "Total_Sum").getD (.str "0")
  match intOfValue total_sum with
  | none => .error ()
  | some t =>
    let transitiefase := get_transitiefase t
    match get_lowest_scoring_domains p with
    | .error e => .error e
    | .ok lowest_domains =>
      .ok [ (0, [("{{organisatie}}", organization),
                 ("{{rapport_datum}}", report_date),
                 ("{{respondent_naam}}", respondent_name)]),
            (3, [("{{organisatie}}", organization),
                 ("{{totaalscore}}", strOfValue total_sum),
                 ("{{transitiefase_naam}}", transitiefase)]),
            (8, [("{{organisatie}}", organization),
                 ("{{transitiefase}}", transitiefase),
                 ("{{laagst_scorende_domein}}", lowest_domains)]) ]

/-! ### Word wrapping (recommendations advice column, support description
column) -/

/-- `" ".join` of a word list (what a wrapped output line is built from:
`current_line + " " + word`). -/
def joinSp : List String → String
  | [] => ""
  | [w] => w
  | w :: rest => w ++ " " ++ joinSp rest

/-- The greedy word-fill loop shared by the advice-column wrapping (source
lines 1163-1176, threshold 45) and the description-column wrapping (source
lines 1509-1523, threshold 60): accumulate words while the candidate line
stays within the threshold, flush the current line otherwise, flush the
remainder at the end. -/
def wrapAux (t : Nat) (cur : String) : List String → List String
  | [] => if cur = "" then [] else [cur]
  | w :: ws =>
    let test := if cur = "" then w else cur ++ " " ++ w
    if test.length ≤ t then wrapAux t test ws
    else (if cur = "" then [] else [cur]) ++ wrapAux t w ws

/-- Python `s.split(sep)` on a character list (keeps empty pieces, always
returns at least one piece). -/
def pySplitChars (sep : Char) : List Char → List (List Char)
  | [] => [[]]
  | c :: rest =>
    match pySplitChars sep rest with
    | [] => [[]]
    | l :: ls => if c = sep then [] :: l :: ls else (c :: l) :: ls

/-- `sep.join(pieces)` on character lists. -/
def joinChar (sep : Char) : List (List Char) → List Char
  | [] => []
  | [l] => l
  | l :: ls => l ++ sep :: joinChar sep ls

/-- Python `s.split(sep)` on strings. -/
def pySplit (sep : Char) (s : String) : List String :=
  (pySplitChars sep s.data).map String.mk

/-- Wrapping of a cell text: `words = data.split(' ')` fed to the greedy
loop; the loop is only entered when the text exceeds the threshold. -/
def wrapCellText (t : Nat) (s : String) : List String :=
  if t < s.length then wrapAux t "" (pySplit ' ' s) else [s]

/-- Advice-column wrap threshold (source lines 1091, 1163). -/
def advice_wrap_width : Nat := 45

/-- Description-column wrap threshold (source lines 1438, 1510). -/
def support_wrap_width : Nat := 60

/-! ### Text cleaning (`clean_text`, source lines 2133-2165) -/

/-- One pass of Python `s.replace(pat, rep)`: replace non-overlapping
occurrences left to right.  (The patterns used are all non-empty.) -/
def replacePat (pat rep : List Char) : List Char → List Char
  | [] => []
  | c :: rest =>
    if h : pat ≠ [] ∧ pat.isPrefixOf (c :: rest) then
      rep ++ replacePat pat rep (rest.drop (pat.length - 1))
    else
      c :: replacePat pat rep rest
termination_by l => l.length
decreasing_by
  all_goals simp [List.length_drop]
  all_goals omega

/-- The `replacements` dict of `clean_text` (source lines 2138-2146), in
iteration order.  The source lists the key `"\x0D\x0A"` twice (once
spelled `"\r\n"`); a Python dict keeps a single entry for it. -/
def clean_replacements : List (List Char × List Char) :=
  [ (['_', 'x', '0', '0', '0', 'A'], ['\n']),
    (['_', 'x', '0', '0', '0', 'D'], ['\r']),
    (['_', 'x', '0', '0', '0', 'B'], ['\n']),
    (['_', 'x', '0', '0', '0', '9'], ['\t']),
    ([ '\x0B' ], ['\n']),
    ([ '\r', '\n' ], ['\n']) ]

/-- The replacement loop of `clean_text` (source lines 2148-2150). -/
def applyReplacements (s : List Char) : List Char :=
  clean_replacements.foldl (fun acc pr => replacePat pr.1 pr.2 acc) s

/-- `pat in s` (Python substring test). -/
def containsPat (pat : List Char) : List Char → Bool
  | [] => pat.isPrefixOf []
  | c :: rest => pat.isPrefixOf (c :: rest) || containsPat pat rest

/-- A Python `while pat in s: s = s.replace(pat, rep)` loop.  Each
iteration of the source loop strictly shortens the string (the patterns
are longer than their replacements), so a fuel of the initial length
reaches the fixed point. -/
def loopReplace (pat rep : List Char) : Nat → List Char → List Char
  | 0, s => s
  | fuel + 1, s =>
    if containsPat pat s then loopReplace pat rep fuel (replacePat pat rep s) else s

/-- `while '\n\n\n' in cleaned: ... replace('\n\n\n', '\n\n')` (source
lines 2153-2154). -/
def collapseNewlines (s : List Char) : List Char :=
  loopReplace ['\n', '\n', '\n'] ['\n', '\n'] s.length s

/-- `while '  ' in line: line = line.replace('  ', ' ')` (source lines
2161-2162). -/
def collapseSpaces (l : List Char) : List Char :=
  loopReplace [' ', ' '] [' '] l.length l

/-- `cleaned.split('\n')` (always returns at least one piece). -/
def splitNL (s : List Char) : List (List Char) :=
  pySplitChars '\n' s

/-- `'\n'.join(lines)`. -/
def joinNL (ls : List (List Char)) : List Char :=
  joinChar '\n' ls

/-- The per-line cleanup (source lines 2159-2163): collapse space runs,
then strip the line. -/
def cleanLine (l : List Char) : List Char :=
  stripChars (collapseSpaces l)

/-- `clean_text` (source lines 2133-2165) on a character list. -/
def cleanChars (s : List Char) : List Char :=
  joinNL (((splitNL (collapseNewlines (applyReplacements s)))).map cleanLine)

/-- `clean_text` on strings. -/
def clean_text (s : String) : String :=
  String.mk (cleanChars s.data)

/-! ### Concrete payloads used by the end-to-end statements -/

/-- The C1 scenario payload: `Governance_Q1_Numeric = 1`, the seven other
subdomain `_Numeric` fields `= 5`. -/
def payloadC1 : Payload :=
  [ ("Governance_Q1_Numeric", .int 1),
    ("Governance_Q2_Numeric", .int 5),
    ("Structuur_Q1_Numeric", .int 5),
    ("Structuur_Q2_Numeric", .int 5),
    ("Proces_Q1_Numeric", .int 5),
    ("Proces_Q2_Numeric", .int 5),
    ("Uitkomsten_en_sturing_Q1_Numeric", .int 5),
    ("Uitkomsten_en_sturing_Q2_Numeric", .int 5) ]

/-- A payload whose free-text score field holds unparseable text. -/
def payloadBadText : Payload :=
  [ ("Governance_Q1", .str "geen score") ]

/-- A payload carrying both encodings for the first Governance subdomain,
with different values, so the two extractors can be told apart. -/
def payloadBothEncodings : Payload :=
  [ ("Governance_Q1", .str "2. Er zijn losse ideeën"),
    ("Governance_Q1_Numeric", .int 1) ]

/-- All eight `_Numeric` fields at 5 (the all-good scenario). -/
def payloadAll5 : Payload :=
  [ ("Governance_Q1_Numeric", .int 5),
    ("Governance_Q2_Numeric", .int 5),
    ("Structuur_Q1_Numeric", .int 5),
    ("Structuur_Q2_Numeric", .int 5),
    ("Proces_Q1_Numeric", .int 5),
    ("Proces_Q2_Numeric", .int 5),
    ("Uitkomsten_en_sturing_Q1_Numeric", .int 5),
    ("Uitkomsten_en_sturing_Q2_Numeric", .int 5) ]

/-! ## Theorems -/

/-- C4: for every total score T in [0,40] the maturity-phase
classification returns exactly one of the five named buckets, the bucket
ranges [0-14], [15-22], [23-30], [31-36], [37-40] are contiguous,
non-overlapping and cover [0,40] (each name is returned exactly on its
range), the phase-index selection of the breakdown chart agrees with
`get_transitiefase`, and the classification of 14 is Startfase, of 15 and
22 Aan de slag, of 23 Op de kaart, and of 40 Voorloper. -/
theorem get_transitiefase_buckets :
    (∀ T : Nat, T ≤ 40 →
      get_transitiefase (T : Int) ∈ phases.map Phase.name ∧
      (get_transitiefase (T : Int) = "Startfase" ↔ T ≤ 14) ∧
      (get_transitiefase (T : Int) = "Aan de slag" ↔ 15 ≤ T ∧ T ≤ 22) ∧
      (get_transitiefase (T : Int) = "Op de kaart" ↔ 23 ≤ T ∧ T ≤ 30) ∧
      (get_transitiefase (T : Int) = "In control" ↔ 31 ≤ T ∧ T ≤ 36) ∧
      (get_transitiefase (T : Int) = "Voorloper" ↔ 37 ≤ T) ∧
      (phases.map Phase.name).get? (current_phase (T : Int)) =
        some (get_transitiefase (T : Int))) ∧
    get_transitiefase 14 = "Startfase" ∧
    get_transitiefase 15 = "Aan de slag" ∧
    get_transitiefase 22 = "Aan de slag" ∧
    get_transitiefase 23 = "Op de kaart" ∧
    get_transitiefase 40 = "Voorloper" := by
  constructor
  · decide
  · exact ⟨rfl, rfl, rfl, rfl, rfl⟩

/-- Witness for C4 at T = 23. -/
theorem get_transitiefase_buckets_witness :
    get_transitiefase (23 : Int) ∈ phases.map Phase.name :=
  (get_transitiefase_buckets.1 23 (by decide)).1

/-- C1 (failing input): on the payload with `Governance_Q1_Numeric = 1`
and the seven other subdomain `_Numeric` fields at 5, the
recommendations renderer extracts only the four subdomains of its
incomplete `numeric_fields` table (all scored 5, `Governance_Q1_Numeric`
is never read) and therefore renders the congratulatory fallback with
zero data rows — not the single "Visie op passende zorg" row the claim
describes.  The support renderer, whose table lists all eight numeric
fields, does produce exactly that row. -/
theorem recommendations_miss_governance_numeric :
    extractRecScores payloadC1 =
      .ok [("Regionale samenwerking", 5), ("Tools en platforms", 5),
           ("Outcomegericht werken", 5), ("Monitoring en besluitvorming", 5)] ∧
    create_concrete_recommendations_report payloadC1 = .ok (.fallback recFallbackMsg) ∧
    create_support_overview_report payloadC1 =
      .ok (.table [⟨"Visie op passende zorg", "Training",
        "Startsessie of training: visie, netwerk of dashboard opzetten.", 1⟩]) := by
  refine ⟨by rfl, by rfl, by rfl⟩

/-- C3 (failing input): when the first Governance subdomain carries both
encodings with different values, the recommendations extraction uses the
free-text score (2) while the support extraction uses the numeric score
(1): numeric precedence fails in the recommendations renderer for the
Governance (and Proces) subdomains, whose `_Numeric` fields its
`numeric_fields` table omits. -/
theorem rec_text_overrides_numeric :
    extractRecScores payloadBothEncodings = .ok [("Visie op passende zorg", 2)] ∧
    extractSupScores payloadBothEncodings = .ok [("Visie op passende zorg", 1)] := by
  refine ⟨by rfl, by rfl⟩

/-- Helper for C2: if any base free-text field of the mapping holds a
non-blank string whose prefix before the first dot does not parse as an
integer, the text-score loop raises (returns the error), whatever the
accumulator. -/
theorem extractTextScores_error_of_unparseable
    (p : Payload) (fm : List (String × String)) (acc : List (String × Int))
    (field sd s : String) (hmem : (field, sd) ∈ fm)
    (hlook : lookupField p field = some (.str s))
    (hstrip : stripNonempty s = true)
    (hparse : pyInt (takeBeforeDot s) = none) :
    extractTextScores p fm acc = .error () := by
  induction fm generalizing acc with
  | nil => cases hmem
  | cons hd tl ih =>
    obtain ⟨f0, s0⟩ := hd
    rcases List.mem_cons.mp hmem with heq | htl
    · injection heq with hf hs
      subst hf; subst hs
      rw [extractTextScores, hlook]
      simp only [hstrip, if_true, hparse]
    · rw [extractTextScores]
      split
      · exact ih acc htl
      · exact ih acc htl
      · split
        · split
          · exact ih _ htl
          · rfl
        · exact ih acc htl

/-- C2 (amended): an unparseable free-text score field is fatal, not
defaulted to 0 — the `int` conversion raises and the error propagates out
of both report builders.  (Only absent fields are skipped silently.) -/
theorem unparseable_text_score_is_fatal
    (p : Payload) (field sd s : String)
    (hmem : (field, sd) ∈ field_mapping)
    (hlook : lookupField p field = some (.str s))
    (hstrip : stripNonempty s = true)
    (hparse : pyInt (takeBeforeDot s) = none) :
    create_concrete_recommendations_report p = .error () ∧
    create_support_overview_report p = .error () := by
  have h := extractTextScores_error_of_unparseable p field_mapping [] field sd s
    hmem hlook hstrip hparse
  constructor
  · rw [create_concrete_recommendations_report, extractRecScores, h]
  · rw [create_support_overview_report, extractSupScores, h]

/-- Witness for C2 (amended claim) at the unparseable payload. -/
theorem unparseable_text_score_is_fatal_witness :
    create_concrete_recommendations_report payloadBadText = .error () ∧
    create_support_overview_report payloadBadText = .error () :=
  unparseable_text_score_is_fatal payloadBadText "Governance_Q1"
    "Visie op passende zorg" "geen score" (by decide) (by decide) (by decide)
    (by decide)

/-- C2 (counterexample to the claim as stated): a payload whose
`Governance_Q1` field holds unparseable text makes report generation
fail — the score is not defaulted to 0 and the condition is fatal. -/
theorem unparseable_text_score_counterexample :
    create_concrete_recommendations_report payloadBadText = .error () := by
  rfl

/-- Helper: a keyed lookup misses when no entry carries the requested
score. -/
theorem lookup_none_of_score_absent {β : Type} (l : List ((String × Int) × β))
    (sd : String) (sc : Int) (h : ∀ e ∈ l, e.1.2 ≠ sc) :
    l.lookup (sd, sc) = none := by
  induction l with
  | nil => rfl
  | cons e tl ih =>
    obtain ⟨⟨k1, k2⟩, v⟩ := e
    have hne : k2 ≠ sc := h ⟨(k1, k2), v⟩ (List.mem_cons_self _ _)
    have hb : ((sd, sc) == ((k1, k2) : String × Int)) = false := by
      rw [beq_eq_false_iff_ne]
      intro hc
      cases hc
      exact hne rfl
    rw [List.lookup, hb]
    exact ih (fun e he => h e (List.mem_cons_of_mem _ he))

/-- Helper: the at-risk filter of the recommendations table keeps nothing
when every score is 0, 4 or 5. -/
theorem buildRecommendations_nil (scores : List (String × Int))
    (h : ∀ x ∈ scores, x.2 = 0 ∨ x.2 = 4 ∨ x.2 = 5) :
    buildRecommendations scores = [] := by
  induction scores with
  | nil => rfl
  | cons x tl ih =>
    obtain ⟨sd, sc⟩ := x
    have hx : sc = 0 ∨ sc = 4 ∨ sc = 5 := h (sd, sc) (List.mem_cons_self _ _)
    have htl := ih (fun y hy => h y (List.mem_cons_of_mem _ hy))
    rcases hx with rfl | rfl | rfl
    · have hA : lookupAdvice sd 0 = none :=
        lookup_none_of_score_absent advice_mapping sd 0 (by decide)
      rw [buildRecommendations, htl, hA]
      norm_num
    · rw [buildRecommendations, htl]
      norm_num
    · rw [buildRecommendations, htl]
      norm_num

/-- Helper: likewise for the support table. -/
theorem buildSupportRows_nil (scores : List (String × Int))
    (h : ∀ x ∈ scores, x.2 = 0 ∨ x.2 = 4 ∨ x.2 = 5) :
    buildSupportRows scores = [] := by
  induction scores with
  | nil => rfl
  | cons x tl ih =>
    obtain ⟨sd, sc⟩ := x
    have hx : sc = 0 ∨ sc = 4 ∨ sc = 5 := h (sd, sc) (List.mem_cons_self _ _)
    have htl := ih (fun y hy => h y (List.mem_cons_of_mem _ hy))
    rcases hx with rfl | rfl | rfl
    · have hA : lookupSupport sd 0 = none :=
        lookup_none_of_score_absent support_mapping sd 0 (by decide)
      rw [buildSupportRows, htl, hA]
      norm_num
    · rw [buildSupportRows, htl]
      norm_num
    · rw [buildSupportRows, htl]
      norm_num

/-- C6: the advice (and support) lookup table has a non-empty entry for
every pair of one of the eight subdomains with a score in {1,2,3}, has no
entry for score 0, 4 or 5 on any subdomain whatsoever, and consequently a
payload whose extracted scores are all 0, 4 or 5 makes both renderers
produce the congratulatory fallback with zero data rows — a defined
success path (`.ok`), not an error. -/
theorem advice_table_complete_and_fallback :
    (∀ sd ∈ field_mapping.map Prod.snd, ∀ sc ∈ ([1, 2, 3] : List Int),
      ∃ e, lookupAdvice sd sc = some e ∧ e.advice ≠ "" ∧
      ∃ e2, lookupSupport sd sc = some e2 ∧ e2.description ≠ "") ∧
    (∀ (sd : String) (sc : Int), sc = 0 ∨ sc = 4 ∨ sc = 5 →
      lookupAdvice sd sc = none ∧ lookupSupport sd sc = none) ∧
    (∀ (p : Payload) (scores : List (String × Int)),
      extractRecScores p = .ok scores →
      (∀ x ∈ scores, x.2 = 0 ∨ x.2 = 4 ∨ x.2 = 5) →
      create_concrete_recommendations_report p = .ok (.fallback recFallbackMsg)) ∧
    (∀ (p : Payload) (scores : List (String × Int)),
      extractSupScores p = .ok scores →
      (∀ x ∈ scores, x.2 = 0 ∨ x.2 = 4 ∨ x.2 = 5) →
      create_support_overview_report p = .ok (.fallback supFallbackMsg)) := by
  refine ⟨by decide, ?_, ?_, ?_⟩
  · intro sd sc h
    constructor
    · exact lookup_none_of_score_absent advice_mapping sd sc
        (by rcases h with rfl | rfl | rfl <;> decide)
    · exact lookup_none_of_score_absent support_mapping sd sc
        (by rcases h with rfl | rfl | rfl <;> decide)
  · intro p scores hex h
    rw [create_concrete_recommendations_report, hex]
    simp [buildRecommendations_nil scores h]
  · intro p scores hex h
    rw [create_support_overview_report, hex]
    simp [buildSupportRows_nil scores h]

/-- Witness for C6: the all-fives payload renders both fallbacks. -/
theorem advice_table_complete_and_fallback_witness :
    create_concrete_recommendations_report payloadAll5 = .ok (.fallback recFallbackMsg) ∧
    create_support_overview_report payloadAll5 = .ok (.fallback supFallbackMsg) :=
  ⟨advice_table_complete_and_fallback.2.2.1 payloadAll5
      [("Regionale samenwerking", 5), ("Tools en platforms", 5),
       ("Outcomegericht werken", 5), ("Monitoring en besluitvorming", 5)]
      (by rfl) (by decide),
   advice_table_complete_and_fallback.2.2.2 payloadAll5
      [("Visie op passende zorg", 5), ("Leiderschap en eigenaarschap", 5),
       ("Regionale samenwerking", 5), ("Tools en platforms", 5),
       ("Patiëntgericht procesontwerp", 5), ("Leren en verbeteren", 5),
       ("Outcomegericht werken", 5), ("Monitoring en besluitvorming", 5)]
      (by rfl) (by decide)⟩

/-- Helper for C9: visiting a duplicate-free list of target indices sets
exactly the existing targets and leaves everything else alone. -/
theorem processSlides_get {α : Type} (targets : List Nat) (hnd : targets.Nodup)
    (slides : List α) (f : Nat → α → α) :
    (processSlides targets slides f).length = slides.length ∧
    ∀ j : Nat, (processSlides targets slides f).get? j =
      if j ∈ targets ∧ j < slides.length then (slides.get? j).map (f j)
      else slides.get? j := by
  induction targets generalizing slides with
  | nil =>
    refine ⟨rfl, fun j => ?_⟩
    simp [processSlides]
  | cons i rest ih =>
    have hnd2 := List.nodup_cons.mp hnd
    by_cases hlt : i < slides.length
    · have hstep : processSlides (i :: rest) slides f =
          processSlides rest (slides.set i (f i (slides.get ⟨i, hlt⟩))) f := by
        rw [processSlides, List.foldl_cons, ← processSlides, dif_pos hlt]
      obtain ⟨ihlen, ihget⟩ := ih hnd2.2 (slides.set i (f i (slides.get ⟨i, hlt⟩)))
      refine ⟨by rw [hstep, ihlen, List.length_set], fun j => ?_⟩
      rw [hstep, ihget j, List.length_set]
      by_cases hji : j = i
      · subst hji
        have hjrest : j ∉ rest := hnd2.1
        rw [if_neg (fun hc => hjrest hc.1),
          if_pos ⟨List.mem_cons_self _ _, hlt⟩,
          List.get?_set_eq_of_lt _ hlt, List.get?_eq_get hlt]
        rfl
      · have hset : (slides.set i (f i (slides.get ⟨i, hlt⟩))).get? j = slides.get? j :=
          List.get?_set_ne _ _ (fun hc => hji hc.symm)
        rw [hset]
        have hmem : (j ∈ i :: rest) ↔ (j ∈ rest) := by
          simp [List.mem_cons, hji]
        simp only [hmem]
    · have hstep : processSlides (i :: rest) slides f = processSlides rest slides f := by
        rw [processSlides, List.foldl_cons, ← processSlides, dif_neg hlt]
      obtain ⟨ihlen, ihget⟩ := ih hnd2.2 slides
      refine ⟨by rw [hstep, ihlen], fun j => ?_⟩
      rw [hstep, ihget j]
      have hmem : (j ∈ i :: rest ∧ j < slides.length) ↔ (j ∈ rest ∧ j < slides.length) := by
        constructor
        · rintro ⟨hm, hj⟩
          rcases List.mem_cons.mp hm with rfl | hm2
          · exact absurd hj hlt
          · exact ⟨hm2, hj⟩
        · rintro ⟨hm, hj⟩
          exact ⟨List.mem_cons_of_mem _ hm, hj⟩
      simp only [hmem]

/-- C9: a target slide index beyond the slide count is silently skipped by
both the chart composer and the placeholder substitution; target slides
below the count are processed normally, all other slides are untouched,
and the slide count never changes (both operations are total: a missing
slide never aborts). -/
theorem missing_slides_skipped {α : Type} (slides : List α)
    (render subst : Nat → α → α) (j : Nat) :
    ((add_charts_to_slides slides render).length = slides.length ∧
     (add_charts_to_slides slides render).get? j =
       if j ∈ chart_slide_targets ∧ j < slides.length
       then (slides.get? j).map (render j) else slides.get? j) ∧
    ((replace_placeholders_slides slides subst).length = slides.length ∧
     (replace_placeholders_slides slides subst).get? j =
       if j ∈ placeholder_slide_targets ∧ j < slides.length
       then (slides.get? j).map (subst j) else slides.get? j) := by
  have h1 := processSlides_get chart_slide_targets (by decide) slides render
  have h2 := processSlides_get placeholder_slide_targets (by decide) slides subst
  exact ⟨⟨h1.1, h1.2 j⟩, ⟨h2.1, h2.2 j⟩⟩

/-- Helper for C10: the accumulation loop of `get_lowest_scoring_domains`,
related to the filter-and-render form, for payloads whose keyword fields
all convert. -/
theorem lowestScoringAux_spec (p : Payload) (score : String → Int)
    (ks : List (String × String))
    (h : ∀ kv ∈ ks, getScoreD p kv.1 = .ok (score kv.1)) (acc : List String) :
    lowestScoringAux p ks acc =
      .ok (acc ++ (ks.filter (fun kv => score kv.1 = 1 ∨ score kv.1 = 2)).map
        (fun kv => kv.2 ++ ": " ++ toString (score kv.1))) := by
  induction ks generalizing acc with
  | nil => simp [lowestScoringAux]
  | cons kv tl ih =>
    obtain ⟨k, kw⟩ := kv
    have hk := h (k, kw) (List.mem_cons_self _ _)
    have htl := fun kv hv => h kv (List.mem_cons_of_mem _ hv)
    rw [lowestScoringAux, hk]
    by_cases hs : score k = 1 ∨ score k = 2
    · simp [hs, ih htl, List.filter_cons, List.append_assoc]
    · simp [hs, ih htl, List.filter_cons]

/-- C10: for a payload whose keyword fields all convert with `int`, the
string substituted for the `{{laagst_scorende_domein}}` placeholder lists
exactly the subdomains scoring 1 or 2 (default 0 for absent fields, so
absent fields and score 3 are excluded), rendered `"<Keyword>: <score>"`
in the fixed field order joined by `", "`, with the `"Geen lage scores"`
fallback; and the slide-8 replacement table carries exactly that string. -/
theorem lowest_scoring_domains_spec :
    (∀ (p : Payload) (score : String → Int),
      (∀ kv ∈ keywords, getScoreD p kv.1 = .ok (score kv.1)) →
      get_lowest_scoring_domains p = .ok (lowestDomainsSpec score)) ∧
    (∀ (p : Payload) (date : String) (repl : List (Nat × List (String × String))),
      slide_replacements p date = .ok repl →
      ∃ lows, get_lowest_scoring_domains p = .ok lows ∧
        (repl.lookup 8).map (fun m => m.lookup "{{laagst_scorende_domein}}") =
          some (some lows)) := by
  constructor
  · intro p score h
    rw [get_lowest_scoring_domains, lowestScoringAux_spec p score keywords h []]
    rw [lowestDomainsSpec]
    simp
  · intro p date repl h
    rw [slide_replacements] at h
    rcases hv : intOfValue ((lookupField p "Total_Sum").getD (.str "0")) with _ | t
    · rw [hv] at h
      cases h
    · rw [hv] at h
      rcases hl : get_lowest_scoring_domains p with e | lows
      · rw [hl] at h
        cases h
      · rw [hl] at h
        refine ⟨lows, rfl, ?_⟩
        cases h
        rfl

/-- Witness for C10 at a one-field payload. -/
theorem lowest_scoring_domains_spec_witness :
    get_lowest_scoring_domains [("Governance_Q1_Numeric", Value.int 1)] =
      .ok (lowestDomainsSpec
        (fun k => if k = "Governance_Q1_Numeric" then 1 else 0)) :=
  lowest_scoring_domains_spec.1 [("Governance_Q1_Numeric", Value.int 1)]
    (fun k => if k = "Governance_Q1_Numeric" then 1 else 0)
    (by
      intro kv hv
      fin_cases hv <;> rfl)

/-- C5: for every domain score s in [0,10] the circle rating normalizes s
to (s/10)*5 and renders floor-many filled glyphs, one half glyph exactly
when the remainder reaches one half, and empty glyphs up to a total of
exactly five; rating(10) is five filled, rating(0) five empty, and
rating(7) three filled, one half, one empty. -/
theorem generate_star_rating_spec :
    (∀ s : ℚ, 0 ≤ s → s ≤ 10 →
      (generate_star_rating s).glyphs =
        List.replicate (⌊s / 10 * 5⌋).toNat '●'
          ++ (if (1 : ℚ)/2 ≤ s / 10 * 5 - ⌊s / 10 * 5⌋ then ['◐'] else [])
          ++ List.replicate (5 - (⌊s / 10 * 5⌋).toNat
              - (if (1 : ℚ)/2 ≤ s / 10 * 5 - ⌊s / 10 * 5⌋ then 1 else 0)) '○' ∧
      (generate_star_rating s).glyphs.length = 5) ∧
    (generate_star_rating 10).glyphs = List.replicate 5 '●' ∧
    (generate_star_rating 0).glyphs = List.replicate 5 '○' ∧
    (generate_star_rating 7).glyphs = ['●', '●', '●', '◐', '○'] := by
  have main : ∀ s : ℚ, 0 ≤ s → s ≤ 10 →
      (generate_star_rating s).glyphs =
        List.replicate (⌊s / 10 * 5⌋).toNat '●'
          ++ (if (1 : ℚ)/2 ≤ s / 10 * 5 - ⌊s / 10 * 5⌋ then ['◐'] else [])
          ++ List.replicate (5 - (⌊s / 10 * 5⌋).toNat
              - (if (1 : ℚ)/2 ≤ s / 10 * 5 - ⌊s / 10 * 5⌋ then 1 else 0)) '○' ∧
      (generate_star_rating s).glyphs.length = 5 := ?_
  · refine ⟨main, ?_, ?_, ?_⟩
    · rw [(main 10 (by norm_num) (by norm_num)).1]
      norm_num <;> decide
    · rw [(main 0 (by norm_num) (by norm_num)).1]
      norm_num <;> decide
    · rw [(main 7 (by norm_num) (by norm_num)).1]
      norm_num <;> decide
  intro s h0 h10
  have hhalf : s / 10 * 5 = s / 2 := by ring
  have hq0 : (0 : ℚ) ≤ s / 10 * 5 := by rw [hhalf]; positivity
  have hq5 : s / 10 * 5 ≤ 5 := by rw [hhalf]; linarith
  have hfl0 : 0 ≤ ⌊s / 10 * 5⌋ := Int.floor_nonneg.mpr hq0
  have hfl5 : ⌊s / 10 * 5⌋ ≤ 5 := by
    have h1 : ⌊s / 10 * 5⌋ ≤ ⌊(5 : ℚ)⌋ := Int.floor_le_floor hq5
    simpa using h1
  have hpt : pyTrunc (s / 10 * 5) = ⌊s / 10 * 5⌋ := by
    rw [pyTrunc, if_pos hq0]
  by_cases hr : (1 : ℚ)/2 ≤ s / 10 * 5 - ⌊s / 10 * 5⌋
  · have hf4 : ⌊s / 10 * 5⌋ ≤ 4 := by
      by_contra hc
      push_neg at hc
      have h5f : (5 : ℤ) ≤ ⌊s / 10 * 5⌋ := hc
      have h5q : (5 : ℚ) ≤ s / 10 * 5 := by exact_mod_cast Int.le_floor.mp h5f
      have heq : s / 10 * 5 = 5 := le_antisymm hq5 h5q
      rw [heq] at hr
      norm_num at hr
    constructor
    · simp only [generate_star_rating, hpt, if_pos hr]
      have hcnt : ((5 : Int) - ⌊s / 10 * 5⌋ - 1).toNat =
          5 - (⌊s / 10 * 5⌋).toNat - 1 := by omega
      rw [hcnt]
      rfl
    · simp only [generate_star_rating, hpt, if_pos hr]
      simp only [List.length_append, List.length_replicate]
      omega
  · constructor
    · simp only [generate_star_rating, hpt, if_neg hr]
      have hcnt : ((5 : Int) - ⌊s / 10 * 5⌋ - 0).toNat =
          5 - (⌊s / 10 * 5⌋).toNat - 0 := by omega
      rw [hcnt]
      rfl
    · simp only [generate_star_rating, hpt, if_neg hr]
      simp only [List.length_append, List.length_replicate]
      omega

/-- Witness for C5 at s = 7. -/
theorem generate_star_rating_spec_witness :
    (generate_star_rating 7).glyphs.length = 5 :=
  (generate_star_rating_spec.1 7 (by norm_num) (by norm_num)).2

/-- Helper: an infix stays an infix after extending the list on the
left. -/
theorem infix_append_left {α : Type} {x l : List α} (l0 : List α)
    (h : x <:+: l) : x <:+: l0 ++ l := by
  obtain ⟨u, v, huv⟩ := h
  exact ⟨l0 ++ u, v, by rw [← huv]; simp [List.append_assoc]⟩

/-- Helper: appending one word to a non-empty segment appends
`" " ++ word` to its join. -/
theorem joinSp_append_one (seg : List String) (w : String) (h : seg ≠ []) :
    joinSp (seg ++ [w]) = joinSp seg ++ " " ++ w := by
  induction seg with
  | nil => cases h rfl
  | cons a tl ih =>
    cases tl with
    | nil => rfl
    | cons b tl2 =>
      have ih2 := ih (by simp)
      show a ++ " " ++ joinSp (b :: tl2 ++ [w]) = a ++ " " ++ joinSp (b :: tl2) ++ " " ++ w
      rw [ih2]
      simp [String.append_assoc]

/-- Helper: the split of a string is never the empty list of pieces. -/
theorem pySplitChars_ne_nil (sep : Char) (l : List Char) :
    pySplitChars sep l ≠ [] := by
  cases l with
  | nil => simp [pySplitChars]
  | cons c rest =>
    rw [pySplitChars]
    rcases pySplitChars sep rest with _ | ⟨l0, ls0⟩
    · simp
    · by_cases hc : c = sep <;> simp [hc]

/-- Helper: joining the pieces of a split restores the string. -/
theorem joinChar_pySplitChars (sep : Char) (l : List Char) :
    joinChar sep (pySplitChars sep l) = l := by
  induction l with
  | nil => rfl
  | cons c rest ih =>
    rcases hsp : pySplitChars sep rest with _ | ⟨l0, ls0⟩
    · exact absurd hsp (pySplitChars_ne_nil sep rest)
    · rw [hsp] at ih
      rw [pySplitChars, hsp]
      show joinChar sep (if c = sep then [] :: l0 :: ls0 else (c :: l0) :: ls0) = c :: rest
      by_cases hc : c = sep
      · subst hc
        rw [if_pos rfl]
        show c :: joinChar c (l0 :: ls0) = c :: rest
        rw [ih]
      · rw [if_neg hc]
        cases ls0 with
        | nil =>
          have h2 : l0 = rest := ih
          show c :: l0 = c :: rest
          rw [h2]
        | cons l1 ls1 =>
          have h2 : l0 ++ sep :: joinChar sep (l1 :: ls1) = rest := ih
          show (c :: l0) ++ sep :: joinChar sep (l1 :: ls1) = c :: rest
          rw [← h2]
          rfl

/-- Helper: `joinSp` over packed character lists is the character-level
join. -/
theorem joinSp_map_mk (ls : List (List Char)) :
    joinSp (ls.map String.mk) = String.mk (joinChar ' ' ls) := by
  induction ls with
  | nil => rfl
  | cons l tl ih =>
    cases tl with
    | nil => rfl
    | cons l2 tl2 =>
      show String.mk l ++ " " ++ joinSp ((l2 :: tl2).map String.mk) =
        String.mk (l ++ ' ' :: joinChar ' ' (l2 :: tl2))
      rw [ih]
      show String.mk (l ++ [' '] ++ joinChar ' ' (l2 :: tl2)) = _
      exact congrArg String.mk (by simp)

/-- Helper: joining a space-split restores the string. -/
theorem joinSp_pySplit (s : String) : joinSp (pySplit ' ' s) = s := by
  rw [pySplit, joinSp_map_mk, joinChar_pySplitChars]

/-- Main invariant of the greedy wrapping loop: every emitted line is the
space-join of a non-empty run of consecutive words, and a line that
exceeds the threshold is a single word. -/
theorem wrapAux_sound (t : Nat) (ws : List String) :
    ∀ (cur : String) (seg : List String),
      (cur = "" ∧ seg = [] ∨
        (seg ≠ [] ∧ cur = joinSp seg ∧ (cur.length ≤ t ∨ seg.length = 1))) →
      ∀ line ∈ wrapAux t cur ws,
        ∃ seg2, seg2 ≠ [] ∧ seg2 <:+: (seg ++ ws) ∧ line = joinSp seg2 ∧
          (t < line.length → seg2.length = 1) := by
  induction ws with
  | nil =>
    intro cur seg hinv line hline
    rw [wrapAux] at hline
    by_cases hc : cur = ""
    · rw [if_pos hc] at hline
      exact absurd hline (List.not_mem_nil line)
    · rw [if_neg hc] at hline
      have hl : line = cur := by simpa using hline
      rcases hinv with ⟨hc2, _⟩ | ⟨hne, hj, hlen⟩
      · exact absurd hc2 hc
      · refine ⟨seg, hne, ⟨[], [], by simp⟩, by rw [hl, hj], ?_⟩
        intro hlong
        rcases hlen with hshort | hone
        · rw [hl] at hlong; omega
        · exact hone
  | cons w ws2 ih =>
    intro cur seg hinv line hline
    simp only [wrapAux] at hline
    by_cases hc : cur = ""
    · subst hc
      simp at hline
      by_cases hw : w = ""
      · subst hw
        obtain ⟨seg2, hne2, hinf, hj2, hl2⟩ := ih "" [] (Or.inl ⟨rfl, rfl⟩) line hline
        refine ⟨seg2, hne2, ?_, hj2, hl2⟩
        have hinf2 : seg2 <:+: ws2 := by simpa using hinf
        have h3 := infix_append_left (seg ++ [""]) hinf2
        simpa [List.append_assoc] using h3
      · obtain ⟨seg2, hne2, hinf, hj2, hl2⟩ :=
          ih w [w] (Or.inr ⟨by simp, rfl, Or.inr rfl⟩) line hline
        exact ⟨seg2, hne2, infix_append_left seg (by simpa using hinf), hj2, hl2⟩
    · rcases hinv with ⟨hc2, _⟩ | ⟨hne, hj, hlen⟩
      · exact absurd hc2 hc
      · simp only [if_neg hc] at hline
        by_cases htest : (cur ++ " " ++ w).length ≤ t
        · rw [if_pos htest] at hline
          have hjoin : cur ++ " " ++ w = joinSp (seg ++ [w]) := by
            rw [joinSp_append_one seg w hne, ← hj]
          obtain ⟨seg2, hne2, hinf, hj2, hl2⟩ :=
            ih (cur ++ " " ++ w) (seg ++ [w])
              (Or.inr ⟨by simp, hjoin, Or.inl htest⟩) line hline
          refine ⟨seg2, hne2, ?_, hj2, hl2⟩
          simpa [List.append_assoc] using hinf
        · rw [if_neg htest] at hline
          rcases List.mem_append.mp hline with hl | hl
          · have hlc : line = cur := by simpa using hl
            refine ⟨seg, hne, ⟨[], w :: ws2, rfl⟩, by rw [hlc, hj], ?_⟩
            intro hlong
            rcases hlen with hshort | hone
            · rw [hlc] at hlong; omega
            · exact hone
          · by_cases hw : w = ""
            · subst hw
              obtain ⟨seg2, hne2, hinf, hj2, hl2⟩ :=
                ih "" [] (Or.inl ⟨rfl, rfl⟩) line hl
              refine ⟨seg2, hne2, ?_, hj2, hl2⟩
              have hinf2 : seg2 <:+: ws2 := by simpa using hinf
              have h3 := infix_append_left (seg ++ [""]) hinf2
              simpa [List.append_assoc] using h3
            · obtain ⟨seg2, hne2, hinf, hj2, hl2⟩ :=
                ih w [w] (Or.inr ⟨by simp, rfl, Or.inr rfl⟩) line hl
              exact ⟨seg2, hne2, infix_append_left seg (by simpa using hinf),
                hj2, hl2⟩

/-- C7: for both thresholds (45 for the advice column, 60 for the support
description column), every line produced by the cell wrapping is the
space-join of a non-empty run of consecutive words of the split input,
and a line longer than the threshold is a single (over-long) word left
unsplit. -/
theorem wrap_lines_within_threshold :
    ∀ tw : Nat, tw = advice_wrap_width ∨ tw = support_wrap_width →
    ∀ (s : String), ∀ line ∈ wrapCellText tw s,
      ∃ seg, seg ≠ [] ∧ seg <:+: pySplit ' ' s ∧ line = joinSp seg ∧
        (tw < line.length → seg.length = 1) := by
  intro tw _ s line hline
  rw [wrapCellText] at hline
  by_cases hlen : tw < s.length
  · rw [if_pos hlen] at hline
    have h := wrapAux_sound tw (pySplit ' ' s) "" [] (Or.inl ⟨rfl, rfl⟩) line hline
    simpa using h
  · rw [if_neg hlen] at hline
    have hl : line = s := by simpa using hline
    refine ⟨pySplit ' ' s, ?_, ⟨[], [], by simp⟩, ?_, ?_⟩
    · rw [pySplit]
      simp [pySplitChars_ne_nil]
    · rw [hl, joinSp_pySplit]
    · intro hlong
      rw [hl] at hlong
      omega

/-- Witness for C7 on a real advice text at threshold 45. -/
theorem wrap_lines_within_threshold_witness :
    ∃ seg, seg ≠ [] ∧
      seg <:+: pySplit ' ' "Faciliteer een visie- en inspiratiesessie met stakeholders." ∧
      "Faciliteer een visie- en inspiratiesessie met" = joinSp seg ∧
      (advice_wrap_width < "Faciliteer een visie- en inspiratiesessie met".length →
        seg.length = 1) :=
  wrap_lines_within_threshold advice_wrap_width (Or.inl rfl)
    "Faciliteer een visie- en inspiratiesessie met stakeholders."
    "Faciliteer een visie- en inspiratiesessie met"
    (by
      have he : wrapCellText advice_wrap_width
          "Faciliteer een visie- en inspiratiesessie met stakeholders." =
          ["Faciliteer een visie- en inspiratiesessie met", "stakeholders."] := rfl
      rw [he]
      exact List.mem_cons_self _ _)

/-! ### `clean_text` lemmas -/

/-- A replace pass leaves a string without the pattern unchanged. -/
theorem replacePat_id (pat rep : List Char) :
    ∀ s : List Char, ¬ pat <:+: s → replacePat pat rep s = s := by
  intro s
  induction s using replacePat.induct pat rep with
  | case1 => intro _; rw [replacePat]
  | case2 c rest h2 ih =>
    intro h
    exact absurd (List.isPrefixOf_iff_prefix.mp h2.2).isInfix h
  | case3 c rest h2 ih =>
    intro h
    rw [replacePat, dif_neg h2, ih (fun hc => h (List.infix_cons hc))]

/-- A replace pass with a no-longer replacement never lengthens. -/
theorem replacePat_length_le (pat rep : List Char) (hlen : rep.length ≤ pat.length) :
    ∀ s : List Char, (replacePat pat rep s).length ≤ s.length := by
  intro s
  induction s using replacePat.induct pat rep with
  | case1 => simp [replacePat]
  | case2 c rest h2 ih =>
    rw [replacePat, dif_pos h2]
    have hple : pat.length ≤ rest.length + 1 := by
      have := (List.isPrefixOf_iff_prefix.mp h2.2).length_le
      simpa using this
    simp only [List.length_append, List.length_cons, List.length_drop] at ih ⊢
    omega
  | case3 c rest h2 ih =>
    rw [replacePat, dif_neg h2]
    simp only [List.length_cons]
    omega

/-- A replace pass with a strictly shorter replacement strictly shortens
any string containing the pattern. -/
theorem replacePat_length_lt (pat rep : List Char) (hlen : rep.length < pat.length) :
    ∀ s : List Char, pat <:+: s → (replacePat pat rep s).length < s.length := by
  intro s
  induction s using replacePat.induct pat rep with
  | case1 =>
    intro h
    have : pat = [] := by simpa using h
    subst this
    simp at hlen
  | case2 c rest h2 ih =>
    intro _
    rw [replacePat, dif_pos h2]
    have hple : pat.length ≤ rest.length + 1 := by
      have := (List.isPrefixOf_iff_prefix.mp h2.2).length_le
      simpa using this
    have hle := replacePat_length_le pat rep (Nat.le_of_lt hlen)
      (rest.drop (pat.length - 1))
    simp only [List.length_append, List.length_cons, List.length_drop] at hle ⊢
    omega
  | case3 c rest h2 ih =>
    intro h
    rcases List.infix_cons_iff.mp h with hpre | hinf
    · by_cases hp : pat = []
      · subst hp; simp at hlen
      · exact absurd ⟨hp, List.isPrefixOf_iff_prefix.mpr hpre⟩ h2
    · rw [replacePat, dif_neg h2]
      have := ih hinf
      simp only [List.length_cons]
      omega

/-- Substring test agrees with the infix relation. -/
theorem containsPat_iff (pat : List Char) :
    ∀ s : List Char, containsPat pat s = true ↔ pat <:+: s := by
  intro s
  induction s with
  | nil =>
    rw [containsPat, List.isPrefixOf_iff_prefix]
    constructor
    · intro h; exact h.isInfix
    · intro h
      have hnil : pat = [] := by simpa using h
      simp [hnil]
  | cons c rest ih =>
    rw [containsPat, Bool.or_eq_true, List.isPrefixOf_iff_prefix, ih,
      List.infix_cons_iff]

/-- A replace loop leaves a pattern-free string unchanged. -/
theorem loopReplace_id (pat rep : List Char) :
    ∀ (fuel : Nat) (s : List Char), containsPat pat s = false →
      loopReplace pat rep fuel s = s := by
  intro fuel s h
  cases fuel with
  | zero => rfl
  | succ n => rw [loopReplace, h]; simp

/-- The replace loop with fuel at least the length reaches a pattern-free
fixed point. -/
theorem loopReplace_no_pattern (pat rep : List Char) (hp : pat ≠ [])
    (hlen : rep.length < pat.length) :
    ∀ (fuel : Nat) (s : List Char), s.length ≤ fuel →
      containsPat pat (loopReplace pat rep fuel s) = false := by
  intro fuel
  induction fuel with
  | zero =>
    intro s hs
    have hnil : s = [] := List.eq_nil_of_length_eq_zero (Nat.le_zero.mp hs)
    subst hnil
    rw [loopReplace]
    cases pat with
    | nil => exact absurd rfl hp
    | cons p ps => rfl
  | succ n ih =>
    intro s hs
    rw [loopReplace]
    by_cases hc : containsPat pat s
    · rw [if_pos hc]
      apply ih
      have hlt := replacePat_length_lt pat rep hlen s ((containsPat_iff pat s).mp hc)
      omega
    · rw [if_neg hc]
      simpa using hc

/-- Characters disjoint from the pattern on the left can be stripped from
an occurrence. -/
theorem infix_of_append_right {p : List Char} (hp : p ≠ []) :
    ∀ (a b : List Char), (∀ ch ∈ a, ch ∉ p) → p <:+: a ++ b → p <:+: b := by
  intro a
  induction a with
  | nil => intro b _ h; simpa using h
  | cons c a2 ih =>
    intro b hch h
    rcases List.infix_cons_iff.mp h with hpre | hinf
    · cases p with
      | nil => exact absurd rfl hp
      | cons q p3 =>
        rw [List.cons_prefix_cons] at hpre
        obtain ⟨heq, _⟩ := hpre
        have hcp : c ∈ q :: p3 := by rw [heq]; exact List.mem_cons_self c p3
        exact absurd hcp (hch c (List.mem_cons_self c a2))
    · exact ih b (fun ch h1 => hch ch (List.mem_cons_of_mem _ h1)) hinf

/-- A prefix of a replaced string that shares no character with the
replacement is a prefix of the original. -/
theorem prefix_of_replacePat (pat rep : List Char) (hrep : rep ≠ []) :
    ∀ (s p2 : List Char), (∀ ch ∈ rep, ch ∉ p2) →
      p2 <+: replacePat pat rep s → p2 <+: s := by
  intro s
  induction s using replacePat.induct pat rep with
  | case1 =>
    intro p2 _ hp
    rw [replacePat] at hp
    simpa using hp
  | case2 c rest h2 ih =>
    intro p2 hch hp
    rw [replacePat, dif_pos h2] at hp
    cases p2 with
    | nil => exact List.nil_prefix
    | cons a p3 =>
      cases rep with
      | nil => exact absurd rfl hrep
      | cons r rs =>
        rw [List.cons_append, List.cons_prefix_cons] at hp
        obtain ⟨rfl, _⟩ := hp
        exact absurd (List.mem_cons_self a p3)
          (hch a (List.mem_cons_self a rs))
  | case3 c rest h2 ih =>
    intro p2 hch hp
    rw [replacePat, dif_neg h2] at hp
    cases p2 with
    | nil => exact List.nil_prefix
    | cons a p3 =>
      rw [List.cons_prefix_cons] at hp ⊢
      obtain ⟨rfl, hp3⟩ := hp
      exact ⟨rfl, ih p3 (fun ch h1 h2b => hch ch h1 (List.mem_cons_of_mem _ h2b)) hp3⟩

/-- An occurrence in a replaced string that shares no character with the
replacement was already in the original. -/
theorem infix_of_replacePat (pat rep : List Char) (hrep : rep ≠ [])
    (p : List Char) (hp : p ≠ []) (hch : ∀ ch ∈ rep, ch ∉ p) :
    ∀ s : List Char, p <:+: replacePat pat rep s → p <:+: s := by
  intro s
  induction s using replacePat.induct pat rep with
  | case1 =>
    intro h
    rw [replacePat] at h
    exact absurd (by simpa using h) hp
  | case2 c rest h2 ih =>
    intro h
    rw [replacePat, dif_pos h2] at h
    have h3 := infix_of_append_right hp rep _ hch h
    have h4 := ih h3
    exact List.infix_cons (h4.trans (List.drop_suffix _ _).isInfix)
  | case3 c rest h2 ih =>
    intro h
    rw [replacePat, dif_neg h2] at h
    rcases List.infix_cons_iff.mp h with hpre | hinf
    · cases p with
      | nil => exact absurd rfl hp
      | cons a p3 =>
        rw [List.cons_prefix_cons] at hpre
        obtain ⟨rfl, hp3⟩ := hpre
        have hp3' : p3 <+: rest := prefix_of_replacePat pat rep hrep rest p3
          (fun ch h1 h2b => hch ch h1 (List.mem_cons_of_mem _ h2b)) hp3
        exact (List.cons_prefix_cons.mpr ⟨rfl, hp3'⟩).isInfix
    · exact List.infix_cons (ih hinf)

/-- Replacing a pattern by a replacement sharing no character with it
removes every occurrence. -/
theorem replacePat_no_self (pat rep : List Char) (hp : pat ≠ []) (hrep : rep ≠ [])
    (hch : ∀ ch ∈ rep, ch ∉ pat) :
    ∀ s : List Char, ¬ pat <:+: replacePat pat rep s := by
  intro s
  induction s using replacePat.induct pat rep with
  | case1 =>
    intro h
    rw [replacePat] at h
    exact hp (by simpa using h)
  | case2 c rest h2 ih =>
    intro h
    rw [replacePat, dif_pos h2] at h
    exact ih (infix_of_append_right hp rep _ hch h)
  | case3 c rest h2 ih =>
    intro h
    rw [replacePat, dif_neg h2] at h
    rcases List.infix_cons_iff.mp h with hpre | hinf
    · cases hpat : pat with
      | nil => exact hp hpat
      | cons q p3 =>
        subst hpat
        rw [List.cons_prefix_cons] at hpre
        obtain ⟨rfl, hp3⟩ := hpre
        have hp3' : p3 <+: rest := prefix_of_replacePat _ rep hrep rest p3
          (fun ch h1 h2b => hch ch h1 (List.mem_cons_of_mem _ h2b)) hp3
        exact h2 ⟨hp, List.isPrefixOf_iff_prefix.mpr
          (List.cons_prefix_cons.mpr ⟨rfl, hp3'⟩)⟩
    · exact ih hinf

/-- Characters of a replaced string come from the original or the
replacement. -/
theorem mem_replacePat (pat rep : List Char) :
    ∀ (s : List Char) (c : Char), c ∈ replacePat pat rep s → c ∈ s ∨ c ∈ rep := by
  intro s
  induction s using replacePat.induct pat rep with
  | case1 =>
    intro c h
    rw [replacePat] at h
    simp at h
  | case2 c0 rest h2 ih =>
    intro c h
    rw [replacePat, dif_pos h2] at h
    rcases List.mem_append.mp h with h1 | h1
    · exact Or.inr h1
    · rcases ih c h1 with h3 | h3
      · exact Or.inl (List.mem_cons_of_mem _ (List.drop_subset _ _ h3))
      · exact Or.inr h3
  | case3 c0 rest h2 ih =>
    intro c h
    rcases List.mem_cons.mp (by rw [replacePat, dif_neg h2] at h; exact h) with rfl | h1
    · exact Or.inl (List.mem_cons_self _ _)
    · rcases ih c h1 with h3 | h3
      · exact Or.inl (List.mem_cons_of_mem _ h3)
      · exact Or.inr h3

/-- Loop version of the occurrence transport. -/
theorem infix_of_loopReplace (pat rep : List Char) (hrep : rep ≠ [])
    (p : List Char) (hp : p ≠ []) (hch : ∀ ch ∈ rep, ch ∉ p) :
    ∀ (fuel : Nat) (s : List Char), p <:+: loopReplace pat rep fuel s → p <:+: s := by
  intro fuel
  induction fuel with
  | zero => intro s h; exact h
  | succ n ih =>
    intro s h
    rw [loopReplace] at h
    by_cases hc : containsPat pat s
    · rw [if_pos hc] at h
      exact infix_of_replacePat pat rep hrep p hp hch s (ih _ h)
    · rwa [if_neg hc] at h

/-- Loop version of the character transport. -/
theorem mem_loopReplace (pat rep : List Char) :
    ∀ (fuel : Nat) (s : List Char) (c : Char),
      c ∈ loopReplace pat rep fuel s → c ∈ s ∨ c ∈ rep := by
  intro fuel
  induction fuel with
  | zero => intro s c h; exact Or.inl h
  | succ n ih =>
    intro s c h
    rw [loopReplace] at h
    by_cases hc : containsPat pat s
    · rw [if_pos hc] at h
      rcases ih _ c h with h1 | h1
      · exact mem_replacePat pat rep s c h1
      · exact Or.inr h1
    · rw [if_neg hc] at h
      exact Or.inl h

/-- A prefix of `a ++ sep :: b` avoiding the separator is a prefix of
`a`. -/
theorem prefix_of_append_sep (sep : Char) :
    ∀ (a p : List Char), sep ∉ p → ∀ b : List Char, p <+: a ++ sep :: b → p <+: a := by
  intro a
  induction a with
  | nil =>
    intro p hsep b h
    cases p with
    | nil => exact List.nil_prefix
    | cons q p3 =>
      rw [List.nil_append, List.cons_prefix_cons] at h
      obtain ⟨heq, _⟩ := h
      exact absurd (heq ▸ List.mem_cons_self q p3) hsep
  | cons c a2 ih =>
    intro p hsep b h
    cases p with
    | nil => exact List.nil_prefix
    | cons q p3 =>
      rw [List.cons_append, List.cons_prefix_cons] at h
      obtain ⟨heq, hp3⟩ := h
      exact List.cons_prefix_cons.mpr
        ⟨heq, ih p3 (fun hm => hsep (List.mem_cons_of_mem _ hm)) b hp3⟩

/-- An occurrence avoiding the separator lies on one side of it. -/
theorem infix_of_append_sep (sep : Char) (p : List Char) (hp : p ≠ [])
    (hsep : sep ∉ p) :
    ∀ a b : List Char, p <:+: a ++ sep :: b → p <:+: a ∨ p <:+: b := by
  intro a
  induction a with
  | nil =>
    intro b h
    rw [List.nil_append] at h
    rcases List.infix_cons_iff.mp h with hpre | hinf
    · cases p with
      | nil => exact absurd rfl hp
      | cons q p3 =>
        rw [List.cons_prefix_cons] at hpre
        obtain ⟨heq, _⟩ := hpre
        exact absurd (heq ▸ List.mem_cons_self q p3) hsep
    · exact Or.inr hinf
  | cons c a2 ih =>
    intro b h
    rw [List.cons_append] at h
    rcases List.infix_cons_iff.mp h with hpre | hinf
    · exact Or.inl (prefix_of_append_sep sep (c :: a2) p hsep b
        (by rwa [List.cons_append])).isInfix
    · rcases ih b hinf with h1 | h1
      · exact Or.inl (List.infix_cons h1)
      · exact Or.inr h1

/-- An occurrence avoiding the separator in a joined list lies within one
of the pieces. -/
theorem infix_joinChar (sep : Char) (p : List Char) (hp : p ≠ [])
    (hsep : sep ∉ p) :
    ∀ ls : List (List Char), p <:+: joinChar sep ls → ∃ l ∈ ls, p <:+: l := by
  intro ls
  induction ls with
  | nil =>
    intro h
    rw [joinChar] at h
    exact absurd (by simpa using h) hp
  | cons l tl ih =>
    intro h
    cases tl with
    | nil => exact ⟨l, List.mem_cons_self _ _, h⟩
    | cons l2 tl2 =>
      have hj : joinChar sep (l :: l2 :: tl2) = l ++ sep :: joinChar sep (l2 :: tl2) := rfl
      rw [hj] at h
      rcases infix_of_append_sep sep p hp hsep l _ h with h1 | h1
      · exact ⟨l, List.mem_cons_self _ _, h1⟩
      · obtain ⟨l3, hm, h3⟩ := ih h1
        exact ⟨l3, List.mem_cons_of_mem _ hm, h3⟩

/-- Splitting after a leading separator prepends an empty piece. -/
theorem pySplitChars_cons_sep (sep : Char) (z : List Char) :
    pySplitChars sep (sep :: z) = [] :: pySplitChars sep z := by
  rcases hz : pySplitChars sep z with _ | ⟨m, ms⟩
  · exact absurd hz (pySplitChars_ne_nil sep z)
  · rw [pySplitChars, hz]
    show (if sep = sep then [] :: m :: ms else (sep :: m) :: ms) = [] :: m :: ms
    rw [if_pos rfl]

/-- Splitting after a non-separator extends the first piece. -/
theorem pySplitChars_cons_ne (sep c : Char) (hc : c ≠ sep) (z : List Char)
    (m : List Char) (ms : List (List Char)) (hz : pySplitChars sep z = m :: ms) :
    pySplitChars sep (c :: z) = (c :: m) :: ms := by
  rw [pySplitChars, hz]
  show (if c = sep then [] :: m :: ms else (c :: m) :: ms) = (c :: m) :: ms
  rw [if_neg hc]

/-- A piece of a split never contains the separator. -/
theorem pySplitChars_sep_notin (sep : Char) :
    ∀ u : List Char, ∀ ℓ ∈ pySplitChars sep u, sep ∉ ℓ := by
  intro u
  induction u with
  | nil =>
    intro ℓ hm
    have : ℓ = [] := by simpa [pySplitChars] using hm
    simp [this]
  | cons c rest ih =>
    intro ℓ hm
    rcases hz : pySplitChars sep rest with _ | ⟨m, ms⟩
    · exact absurd hz (pySplitChars_ne_nil sep rest)
    · by_cases hc : c = sep
      · subst hc
        rw [pySplitChars_cons_sep, hz] at hm
        rcases List.mem_cons.mp hm with rfl | hm2
        · simp
        · exact ih ℓ (hz ▸ hm2)
      · rw [pySplitChars_cons_ne sep c hc rest m ms hz] at hm
        rcases List.mem_cons.mp hm with rfl | hm2
        · intro hin
          rcases List.mem_cons.mp hin with heq | hin2
          · exact hc heq.symm
          · exact ih m (hz ▸ List.mem_cons_self m ms) hin2
        · exact ih ℓ (hz ▸ List.mem_cons_of_mem _ hm2)

/-- The first piece of a split is a prefix of the string. -/
theorem pySplitChars_head_prefix (sep : Char) :
    ∀ (u l0 : List Char) (ls0 : List (List Char)),
      pySplitChars sep u = l0 :: ls0 → l0 <+: u := by
  intro u
  induction u with
  | nil =>
    intro l0 ls0 h
    rw [pySplitChars] at h
    injection h with h1 _
    subst h1
    exact List.nil_prefix
  | cons c rest ih =>
    intro l0 ls0 h
    rcases hz : pySplitChars sep rest with _ | ⟨m, ms⟩
    · exact absurd hz (pySplitChars_ne_nil sep rest)
    · by_cases hc : c = sep
      · subst hc
        rw [pySplitChars_cons_sep, hz] at h
        injection h with h1 _
        subst h1
        exact List.nil_prefix
      · rw [pySplitChars_cons_ne sep c hc rest m ms hz] at h
        injection h with h1 _
        subst h1
        exact List.cons_prefix_cons.mpr ⟨rfl, ih m ms hz⟩

/-- Every piece of a split is an infix of the string. -/
theorem pySplitChars_infix_of_mem (sep : Char) :
    ∀ u : List Char, ∀ ℓ ∈ pySplitChars sep u, ℓ <:+: u := by
  intro u
  induction u with
  | nil =>
    intro ℓ hm
    have : ℓ = [] := by simpa [pySplitChars] using hm
    simp [this]
  | cons c rest ih =>
    intro ℓ hm
    rcases hz : pySplitChars sep rest with _ | ⟨m, ms⟩
    · exact absurd hz (pySplitChars_ne_nil sep rest)
    · by_cases hc : c = sep
      · subst hc
        rw [pySplitChars_cons_sep, hz] at hm
        rcases List.mem_cons.mp hm with rfl | hm2
        · exact ⟨[], c :: rest, rfl⟩
        · exact List.infix_cons (ih ℓ (hz ▸ hm2))
      · rw [pySplitChars_cons_ne sep c hc rest m ms hz] at hm
        rcases List.mem_cons.mp hm with rfl | hm2
        · exact (List.cons_prefix_cons.mpr
            ⟨rfl, pySplitChars_head_prefix sep rest m ms hz⟩).isInfix
        · exact List.infix_cons (ih ℓ (hz ▸ List.mem_cons_of_mem _ hm2))

/-- Splitting a separator-free string yields it as the single piece. -/
theorem pySplitChars_eq_single (sep : Char) :
    ∀ l : List Char, sep ∉ l → pySplitChars sep l = [l] := by
  intro l
  induction l with
  | nil => intro _; rfl
  | cons c l2 ih =>
    intro h
    have h2 := ih (fun hm => h (List.mem_cons_of_mem _ hm))
    have hc : c ≠ sep := fun hcs => h (hcs ▸ List.mem_cons_self c l2)
    rw [pySplitChars_cons_ne sep c hc l2 l2 [] h2]

/-- Splitting `l ++ sep :: z` with a separator-free first part peels it
off. -/
theorem pySplitChars_append_sep (sep : Char) :
    ∀ (l z : List Char), sep ∉ l →
      pySplitChars sep (l ++ sep :: z) = l :: pySplitChars sep z := by
  intro l
  induction l with
  | nil => intro z _; rw [List.nil_append, pySplitChars_cons_sep]
  | cons c l2 ih =>
    intro z h
    have h2 := ih z (fun hm => h (List.mem_cons_of_mem _ hm))
    have hc : c ≠ sep := fun hcs => h (hcs ▸ List.mem_cons_self c l2)
    rw [List.cons_append, pySplitChars_cons_ne sep c hc _ _ _ h2]

/-- Splitting a join of separator-free pieces restores the pieces. -/
theorem pySplitChars_joinChar (sep : Char) :
    ∀ ls : List (List Char), ls ≠ [] → (∀ l ∈ ls, sep ∉ l) →
      pySplitChars sep (joinChar sep ls) = ls := by
  intro ls
  induction ls with
  | nil => intro h _; exact absurd rfl h
  | cons l tl ih =>
    intro _ hfree
    cases tl with
    | nil =>
      show pySplitChars sep l = [l]
      exact pySplitChars_eq_single sep l (hfree l (List.mem_cons_self _ _))
    | cons l2 tl2 =>
      have hj : joinChar sep (l :: l2 :: tl2) = l ++ sep :: joinChar sep (l2 :: tl2) := rfl
      rw [hj, pySplitChars_append_sep sep l _ (hfree l (List.mem_cons_self _ _)),
        ih (by simp) (fun x hx => hfree x (List.mem_cons_of_mem _ hx))]

/-- The stripped string is a prefix of the left-stripped string. -/
theorem stripChars_prefix_dropWhile (l : List Char) :
    stripChars l <+: l.dropWhile isPyWs := by
  rw [stripChars, ← List.reverse_suffix, List.reverse_reverse]
  exact List.dropWhile_suffix isPyWs

/-- Stripping yields an infix. -/
theorem stripChars_infix_self (l : List Char) : stripChars l <:+: l :=
  (stripChars_prefix_dropWhile l).isInfix.trans (List.dropWhile_suffix isPyWs).isInfix

/-- The head surviving a `dropWhile` fails the predicate. -/
theorem dropWhile_head_false (q : Char → Bool) :
    ∀ (z : List Char) (c : Char) (t : List Char),
      z.dropWhile q = c :: t → q c = false := by
  intro z
  induction z with
  | nil => intro c t h; simp at h
  | cons a z2 ih =>
    intro c t h
    rw [List.dropWhile_cons] at h
    by_cases hq : q a = true
    · rw [if_pos hq] at h
      exact ih c t h
    · rw [if_neg hq] at h
      injection h with h1 _
      subst h1
      simpa using hq

/-- A non-empty stripped string starts with a non-whitespace character. -/
theorem stripChars_head_not_ws (l : List Char) (c : Char) (t : List Char)
    (h : stripChars l = c :: t) : isPyWs c = false := by
  have hp := stripChars_prefix_dropWhile l
  rw [h] at hp
  cases hd : l.dropWhile isPyWs with
  | nil => rw [hd] at hp; simpa using hp
  | cons d t2 =>
    rw [hd] at hp
    rw [List.cons_prefix_cons] at hp
    obtain ⟨heq, _⟩ := hp
    rw [heq]
    exact dropWhile_head_false isPyWs l d t2 hd

/-- A non-empty stripped string ends with a non-whitespace character. -/
theorem stripChars_getLast_not_ws (l : List Char) (x : Char)
    (h : (stripChars l).getLast? = some x) : isPyWs x = false := by
  rw [stripChars, List.getLast?_eq_head?_reverse, List.reverse_reverse] at h
  cases hd : (l.dropWhile isPyWs).reverse.dropWhile isPyWs with
  | nil => rw [hd] at h; simp at h
  | cons d t2 =>
    rw [hd] at h
    simp only [List.head?_cons, Option.some.injEq] at h
    subst h
    exact dropWhile_head_false isPyWs _ d t2 hd

/-- Stripping a string with non-whitespace ends is the identity. -/
theorem stripChars_eq_self (l : List Char)
    (hhead : ∀ c t, l = c :: t → isPyWs c = false)
    (hlast : ∀ x, l.getLast? = some x → isPyWs x = false) :
    stripChars l = l := by
  have h1 : l.dropWhile isPyWs = l := by
    cases hc : l with
    | nil => rfl
    | cons c t =>
      rw [List.dropWhile_cons_of_neg]
      simp [hhead c t hc]
  rw [stripChars, h1]
  have h2 : l.reverse.dropWhile isPyWs = l.reverse := by
    cases hr : l.reverse with
    | nil => rfl
    | cons c t =>
      rw [List.dropWhile_cons_of_neg]
      have hlx : l.getLast? = some c := by
        rw [List.getLast?_eq_head?_reverse, hr]
        rfl
      simp [hlast c hlx]
  rw [h2, List.reverse_reverse]

/-- Stripping is idempotent. -/
theorem stripChars_idem (l : List Char) :
    stripChars (stripChars l) = stripChars l := by
  apply stripChars_eq_self
  · intro c t h
    exact stripChars_head_not_ws l c t h
  · intro x h
    exact stripChars_getLast_not_ws l x h

/-- A string without double spaces is untouched by the space collapse. -/
theorem collapseSpaces_fixed (l : List Char) (h : ¬ [' ', ' '] <:+: l) :
    collapseSpaces l = l := by
  rw [collapseSpaces]
  apply loopReplace_id
  cases hb : containsPat [' ', ' '] l with
  | true => exact absurd ((containsPat_iff _ l).mp hb) h
  | false => rfl

/-- The space collapse leaves no double space. -/
theorem collapseSpaces_no_double (l : List Char) :
    containsPat [' ', ' '] (collapseSpaces l) = false :=
  loopReplace_no_pattern _ _ (by simp) (by simp) l.length l (Nat.le_refl _)

/-- The per-line cleanup is idempotent. -/
theorem cleanLine_idem (l : List Char) : cleanLine (cleanLine l) = cleanLine l := by
  have hnd : ¬ [' ', ' '] <:+: cleanLine l := by
    intro hc
    have h2 : [' ', ' '] <:+: collapseSpaces l :=
      hc.trans (stripChars_infix_self (collapseSpaces l))
    have h3 := collapseSpaces_no_double l
    have h4 := (containsPat_iff [' ', ' '] (collapseSpaces l)).mpr h2
    rw [h3] at h4
    cases h4
  show stripChars (collapseSpaces (cleanLine l)) = cleanLine l
  rw [collapseSpaces_fixed _ hnd]
  exact stripChars_idem (collapseSpaces l)

/-- Characters of a cleaned line come from the line (or are the space the
collapse writes back). -/
theorem mem_cleanLine (l : List Char) (c : Char) (h : c ∈ cleanLine l) :
    c ∈ l ∨ c = ' ' := by
  have h1 : c ∈ collapseSpaces l := (stripChars_infix_self (collapseSpaces l)).subset h
  rcases mem_loopReplace _ _ _ _ c h1 with h2 | h2
  · exact Or.inl h2
  · simp at h2
    exact Or.inr h2

/-- One `'\n\n\n' -> '\n\n'` pass keeps the first line and only merges
empty lines: the head piece of the split is unchanged and every later
piece was already a later piece (or is empty). -/
theorem splitNL_replacePat_structure :
    ∀ s : List Char,
      (pySplitChars '\n' (replacePat ['\n', '\n', '\n'] ['\n', '\n'] s)).head? =
        (pySplitChars '\n' s).head? ∧
      (∀ ℓ ∈ (pySplitChars '\n' (replacePat ['\n', '\n', '\n'] ['\n', '\n'] s)).tail,
        ℓ ∈ (pySplitChars '\n' s).tail ∨ ℓ = []) := by
  intro s
  induction s using replacePat.induct ['\n', '\n', '\n'] ['\n', '\n'] with
  | case1 =>
    rw [replacePat]
    exact ⟨rfl, by intro ℓ h; simp [pySplitChars] at h⟩
  | case2 c rest h2 ih =>
    have hpre := List.isPrefixOf_iff_prefix.mp h2.2
    rw [List.cons_prefix_cons] at hpre
    obtain ⟨hc, hpre2⟩ := hpre
    subst hc
    cases rest with
    | nil => simp at hpre2
    | cons d rest2 =>
      rw [List.cons_prefix_cons] at hpre2
      obtain ⟨hd, hpre3⟩ := hpre2
      subst hd
      cases rest2 with
      | nil => simp at hpre3
      | cons e s2 =>
        rw [List.cons_prefix_cons] at hpre3
        obtain ⟨he, _⟩ := hpre3
        subst he
        have hdrop : List.drop ((['\n', '\n', '\n'] : List Char).length - 1)
            ('\n' :: '\n' :: s2) = s2 := rfl
        rw [hdrop] at ih
        rw [replacePat, dif_pos h2, hdrop]
        simp only [List.cons_append, List.nil_append]
        rw [pySplitChars_cons_sep, pySplitChars_cons_sep, pySplitChars_cons_sep,
          pySplitChars_cons_sep, pySplitChars_cons_sep]
        rcases hsR : pySplitChars '\n'
            (replacePat ['\n', '\n', '\n'] ['\n', '\n'] s2) with _ | ⟨r0, rs⟩
        · exact absurd hsR (pySplitChars_ne_nil _ _)
        · rcases hs2 : pySplitChars '\n' s2 with _ | ⟨m0, ms⟩
          · exact absurd hs2 (pySplitChars_ne_nil _ _)
          · have ih1 := ih.1
            rw [hsR, hs2] at ih1
            simp only [List.head?_cons, Option.some.injEq] at ih1
            subst ih1
            refine ⟨rfl, ?_⟩
            intro ℓ hm
            simp only [List.tail_cons] at hm ⊢
            rcases List.mem_cons.mp hm with rfl | hm2
            · exact Or.inr rfl
            · rcases List.mem_cons.mp hm2 with rfl | hm3
              · exact Or.inl (by simp)
              · have h6 := ih.2 ℓ (by rw [hsR]; exact hm3)
                rw [hs2] at h6
                rcases h6 with h5 | h5
                · simp only [List.tail_cons] at h5
                  exact Or.inl (by simp [h5])
                · exact Or.inr h5
  | case3 c rest h2 ih =>
    rw [replacePat, dif_neg h2]
    rcases hsR : pySplitChars '\n'
        (replacePat ['\n', '\n', '\n'] ['\n', '\n'] rest) with _ | ⟨r0, rs⟩
    · exact absurd hsR (pySplitChars_ne_nil _ _)
    · rcases hsrest : pySplitChars '\n' rest with _ | ⟨m0, ms⟩
      · exact absurd hsrest (pySplitChars_ne_nil _ _)
      · have ih1 := ih.1
        rw [hsR, hsrest] at ih1
        simp only [List.head?_cons, Option.some.injEq] at ih1
        subst ih1
        by_cases hc : c = '\n'
        · subst hc
          rw [pySplitChars_cons_sep, pySplitChars_cons_sep, hsR, hsrest]
          refine ⟨rfl, ?_⟩
          intro ℓ hm
          simp only [List.tail_cons] at hm ⊢
          rcases List.mem_cons.mp hm with rfl | hm2
          · exact Or.inl (List.mem_cons_self _ _)
          · have h6 := ih.2 ℓ (by rw [hsR]; exact hm2)
            rw [hsrest] at h6
            rcases h6 with h5 | h5
            · simp only [List.tail_cons] at h5
              exact Or.inl (List.mem_cons_of_mem _ h5)
            · exact Or.inr h5
        · rw [pySplitChars_cons_ne '\n' c hc _ _ _ hsR,
            pySplitChars_cons_ne '\n' c hc _ _ _ hsrest]
          refine ⟨rfl, ?_⟩
          intro ℓ hm
          simp only [List.tail_cons] at hm ⊢
          have h6 := ih.2 ℓ (by rw [hsR]; exact hm)
          rw [hsrest] at h6
          rcases h6 with h5 | h5
          · simp only [List.tail_cons] at h5
            exact Or.inl h5
          · exact Or.inr h5

/-- Loop version of the piece-structure preservation. -/
theorem splitNL_loopReplace_structure :
    ∀ (fuel : Nat) (s : List Char),
      (pySplitChars '\n' (loopReplace ['\n', '\n', '\n'] ['\n', '\n'] fuel s)).head? =
        (pySplitChars '\n' s).head? ∧
      (∀ ℓ ∈ (pySplitChars '\n' (loopReplace ['\n', '\n', '\n'] ['\n', '\n'] fuel s)).tail,
        ℓ ∈ (pySplitChars '\n' s).tail ∨ ℓ = []) := by
  intro fuel
  induction fuel with
  | zero => exact fun s => ⟨rfl, fun ℓ h => Or.inl h⟩
  | succ n ih =>
    intro s
    rw [loopReplace]
    by_cases hcp : containsPat ['\n', '\n', '\n'] s
    · rw [if_pos hcp]
      obtain ⟨ihead, itail⟩ := ih (replacePat ['\n', '\n', '\n'] ['\n', '\n'] s)
      obtain ⟨shead, stail⟩ := splitNL_replacePat_structure s
      refine ⟨ihead.trans shead, ?_⟩
      intro ℓ hm
      rcases itail ℓ hm with h1 | h1
      · exact stail ℓ h1
      · exact Or.inr h1
    · rw [if_neg hcp]
      exact ⟨rfl, fun ℓ h => Or.inl h⟩

/-- Every piece of the split after the newline collapse is a piece of the
split before it, or empty. -/
theorem mem_splitNL_collapseNewlines (s ℓ : List Char)
    (h : ℓ ∈ pySplitChars '\n' (collapseNewlines s)) :
    ℓ ∈ pySplitChars '\n' s ∨ ℓ = [] := by
  obtain ⟨hhead, htail⟩ := splitNL_loopReplace_structure s.length s
  rw [collapseNewlines] at h
  rcases hsr : pySplitChars '\n'
      (loopReplace ['\n', '\n', '\n'] ['\n', '\n'] s.length s) with _ | ⟨r0, rs⟩
  · exact absurd hsr (pySplitChars_ne_nil _ _)
  · rcases hss : pySplitChars '\n' s with _ | ⟨m0, ms⟩
    · exact absurd hss (pySplitChars_ne_nil _ _)
    · rw [hsr, hss] at hhead
      simp only [List.head?_cons, Option.some.injEq] at hhead
      subst hhead
      rw [hsr] at h
      rcases List.mem_cons.mp h with rfl | hm2
      · exact Or.inl (List.mem_cons_self _ _)
      · have h6 := htail ℓ (by rw [hsr]; exact hm2)
        rw [hss] at h6
        rcases h6 with h5 | h5
        · simp only [List.tail_cons] at h5
          exact Or.inl (List.mem_cons_of_mem _ h5)
        · exact Or.inr h5

/-- A string the substring test rejects has no occurrence. -/
theorem not_infix_of_containsPat_false {p s : List Char}
    (h : containsPat p s = false) : ¬ p <:+: s := by
  intro hc
  rw [(containsPat_iff p s).mpr hc] at h
  cases h

/-- The six replacement passes of `clean_text`, unfolded. -/
theorem applyReplacements_eq (s : List Char) :
    applyReplacements s =
      replacePat ['\r', '\n'] ['\n']
        (replacePat ['\x0B'] ['\n']
          (replacePat ['_', 'x', '0', '0', '0', '9'] ['\t']
            (replacePat ['_', 'x', '0', '0', '0', 'B'] ['\n']
              (replacePat ['_', 'x', '0', '0', '0', 'D'] ['\r']
                (replacePat ['_', 'x', '0', '0', '0', 'A'] ['\n'] s))))) := rfl

/-- The replacement passes leave a token-free string unchanged. -/
theorem applyReplacements_id (s : List Char)
    (h1 : ¬ ['_', 'x', '0', '0', '0', 'A'] <:+: s)
    (h2 : ¬ ['_', 'x', '0', '0', '0', 'D'] <:+: s)
    (h3 : ¬ ['_', 'x', '0', '0', '0', 'B'] <:+: s)
    (h4 : ¬ ['_', 'x', '0', '0', '0', '9'] <:+: s)
    (h5 : ¬ ['\x0B'] <:+: s)
    (h6 : ¬ ['\r', '\n'] <:+: s) :
    applyReplacements s = s := by
  rw [applyReplacements_eq,
    replacePat_id ['_', 'x', '0', '0', '0', 'A'] ['\n'] s h1,
    replacePat_id ['_', 'x', '0', '0', '0', 'D'] ['\r'] s h2,
    replacePat_id ['_', 'x', '0', '0', '0', 'B'] ['\n'] s h3,
    replacePat_id ['_', 'x', '0', '0', '0', '9'] ['\t'] s h4,
    replacePat_id ['\x0B'] ['\n'] s h5,
    replacePat_id ['\r', '\n'] ['\n'] s h6]

/-- After the replacement passes, none of the five killable tokens
occurs.  (The `'\r\n'` pattern is not killed by its own pass — the pass
can recreate it — its absence from the final output comes from the line
stripping instead.) -/
theorem applyReplacements_no_tok (s : List Char) :
    ¬ ['_', 'x', '0', '0', '0', 'A'] <:+: applyReplacements s ∧
    ¬ ['_', 'x', '0', '0', '0', 'D'] <:+: applyReplacements s ∧
    ¬ ['_', 'x', '0', '0', '0', 'B'] <:+: applyReplacements s ∧
    ¬ ['_', 'x', '0', '0', '0', '9'] <:+: applyReplacements s ∧
    ¬ ['\x0B'] <:+: applyReplacements s := by
  rw [applyReplacements_eq]
  refine ⟨?_, ?_, ?_, ?_, ?_⟩ <;> intro h
  · have k5 := infix_of_replacePat ['\r', '\n'] ['\n'] (by simp)
      ['_', 'x', '0', '0', '0', 'A'] (by simp) (by decide) _ h
    have k4 := infix_of_replacePat ['\x0B'] ['\n'] (by simp)
      ['_', 'x', '0', '0', '0', 'A'] (by simp) (by decide) _ k5
    have k3 := infix_of_replacePat ['_', 'x', '0', '0', '0', '9'] ['\t'] (by simp)
      ['_', 'x', '0', '0', '0', 'A'] (by simp) (by decide) _ k4
    have k2 := infix_of_replacePat ['_', 'x', '0', '0', '0', 'B'] ['\n'] (by simp)
      ['_', 'x', '0', '0', '0', 'A'] (by simp) (by decide) _ k3
    have k1 := infix_of_replacePat ['_', 'x', '0', '0', '0', 'D'] ['\r'] (by simp)
      ['_', 'x', '0', '0', '0', 'A'] (by simp) (by decide) _ k2
    exact replacePat_no_self ['_', 'x', '0', '0', '0', 'A'] ['\n']
      (by simp) (by simp) (by decide) s k1
  · have k5 := infix_of_replacePat ['\r', '\n'] ['\n'] (by simp)
      ['_', 'x', '0', '0', '0', 'D'] (by simp) (by decide) _ h
    have k4 := infix_of_replacePat ['\x0B'] ['\n'] (by simp)
      ['_', 'x', '0', '0', '0', 'D'] (by simp) (by decide) _ k5
    have k3 := infix_of_replacePat ['_', 'x', '0', '0', '0', '9'] ['\t'] (by simp)
      ['_', 'x', '0', '0', '0', 'D'] (by simp) (by decide) _ k4
    have k2 := infix_of_replacePat ['_', 'x', '0', '0', '0', 'B'] ['\n'] (by simp)
      ['_', 'x', '0', '0', '0', 'D'] (by simp) (by decide) _ k3
    exact replacePat_no_self ['_', 'x', '0', '0', '0', 'D'] ['\r']
      (by simp) (by simp) (by decide) _ k2
  · have k5 := infix_of_replacePat ['\r', '\n'] ['\n'] (by simp)
      ['_', 'x', '0', '0', '0', 'B'] (by simp) (by decide) _ h
    have k4 := infix_of_replacePat ['\x0B'] ['\n'] (by simp)
      ['_', 'x', '0', '0', '0', 'B'] (by simp) (by decide) _ k5
    have k3 := infix_of_replacePat ['_', 'x', '0', '0', '0', '9'] ['\t'] (by simp)
      ['_', 'x', '0', '0', '0', 'B'] (by simp) (by decide) _ k4
    exact replacePat_no_self ['_', 'x', '0', '0', '0', 'B'] ['\n']
      (by simp) (by simp) (by decide) _ k3
  · have k5 := infix_of_replacePat ['\r', '\n'] ['\n'] (by simp)
      ['_', 'x', '0', '0', '0', '9'] (by simp) (by decide) _ h
    have k4 := infix_of_replacePat ['\x0B'] ['\n'] (by simp)
      ['_', 'x', '0', '0', '0', '9'] (by simp) (by decide) _ k5
    exact replacePat_no_self ['_', 'x', '0', '0', '0', '9'] ['\t']
      (by simp) (by simp) (by decide) _ k4
  · have k5 := infix_of_replacePat ['\r', '\n'] ['\n'] (by simp)
      ['\x0B'] (by simp) (by decide) _ h
    exact replacePat_no_self ['\x0B'] ['\n'] (by simp) (by simp) (by decide) _ k5

/-- A `'\r\n'` occurrence in `a ++ '\n' :: b` with a newline-free `a` not
ending in whitespace must lie in `b`. -/
theorem crlf_of_append (a : List Char) (hna : '\n' ∉ a)
    (hlast : ∀ x, a.getLast? = some x → isPyWs x = false) :
    ∀ b : List Char, ['\r', '\n'] <:+: a ++ '\n' :: b → ['\r', '\n'] <:+: b := by
  induction a with
  | nil =>
    intro b h
    rw [List.nil_append] at h
    rcases List.infix_cons_iff.mp h with hpre | hinf
    · rw [List.cons_prefix_cons] at hpre
      exact absurd hpre.1 (by decide)
    · exact hinf
  | cons c a2 ih =>
    intro b h
    rw [List.cons_append] at h
    rcases List.infix_cons_iff.mp h with hpre | hinf
    · rw [List.cons_prefix_cons] at hpre
      obtain ⟨heq, hp2⟩ := hpre
      cases a2 with
      | nil =>
        have hc := hlast c rfl
        rw [← heq] at hc
        simp [isPyWs] at hc
      | cons d a3 =>
        rw [List.cons_append, List.cons_prefix_cons] at hp2
        obtain ⟨hd, _⟩ := hp2
        exact absurd (by rw [hd]; exact List.mem_cons_of_mem _ (List.mem_cons_self d a3))
          hna
    · have hna2 : '\n' ∉ a2 := fun hm => hna (List.mem_cons_of_mem _ hm)
      have hlast2 : ∀ x, a2.getLast? = some x → isPyWs x = false := by
        intro x hx
        apply hlast
        cases a2 with
        | nil => simp at hx
        | cons d a3 => rw [List.getLast?_cons_cons]; exact hx
      exact ih hna2 hlast2 b hinf

/-- A join of newline-free lines, none ending in whitespace, contains no
`'\r\n'`. -/
theorem no_crlf_joinChar (ls : List (List Char))
    (hfree : ∀ l ∈ ls, '\n' ∉ l)
    (hlast : ∀ l ∈ ls, ∀ x, l.getLast? = some x → isPyWs x = false) :
    ¬ ['\r', '\n'] <:+: joinChar '\n' ls := by
  induction ls with
  | nil =>
    intro h
    rw [joinChar] at h
    have : (['\r', '\n'] : List Char) = [] := by simpa using h
    cases this
  | cons l tl ih =>
    cases tl with
    | nil =>
      intro h
      exact hfree l (List.mem_cons_self _ _) (h.subset (by simp))
    | cons l2 tl2 =>
      intro h
      have hj : joinChar '\n' (l :: l2 :: tl2) = l ++ '\n' :: joinChar '\n' (l2 :: tl2) := rfl
      rw [hj] at h
      have h2 := crlf_of_append l (hfree l (List.mem_cons_self _ _))
        (hlast l (List.mem_cons_self _ _)) _ h
      exact ih (fun x hx => hfree x (List.mem_cons_of_mem _ hx))
        (fun x hx => hlast x (List.mem_cons_of_mem _ hx)) h2

/-- Mapping a function that fixes every element is the identity. -/
theorem map_id_of {α : Type} (f : α → α) :
    ∀ l : List α, (∀ a ∈ l, f a = a) → l.map f = l := by
  intro l
  induction l with
  | nil => intro _; rfl
  | cons a tl ih =>
    intro h
    rw [List.map_cons, h a (List.mem_cons_self _ _),
      ih (fun x hx => h x (List.mem_cons_of_mem _ hx))]

/-- `clean_text` as a join of cleaned lines. -/
theorem cleanChars_eq_join (s : List Char) :
    cleanChars s = joinChar '\n'
      ((pySplitChars '\n' (collapseNewlines (applyReplacements s))).map cleanLine) := rfl

/-- A cleaned line of a newline-free line is newline-free. -/
theorem cleanLine_no_nl (m : List Char) (hm : '\n' ∉ m) : '\n' ∉ cleanLine m := by
  intro hin
  rcases mem_cleanLine m '\n' hin with h1 | h1
  · exact hm h1
  · exact absurd h1 (by decide)

/-- A cleaned line does not end in whitespace. -/
theorem cleanLine_last_not_ws (m : List Char) (x : Char)
    (h : (cleanLine m).getLast? = some x) : isPyWs x = false :=
  stripChars_getLast_not_ws (collapseSpaces m) x h

/-- The lines of a `clean_text` output are its cleaned lines. -/
theorem splitNL_cleanChars (s : List Char) :
    pySplitChars '\n' (cleanChars s) =
      (pySplitChars '\n' (collapseNewlines (applyReplacements s))).map cleanLine := by
  rw [cleanChars_eq_join]
  apply pySplitChars_joinChar
  · intro hc
    exact pySplitChars_ne_nil '\n' _ (by simpa using hc)
  · intro l hl
    obtain ⟨m, hm, rfl⟩ := List.mem_map.mp hl
    exact cleanLine_no_nl m (pySplitChars_sep_notin '\n' _ m hm)

/-- Newline- and space-free patterns absent after the replacement passes
stay absent in the final `clean_text` output. -/
theorem cleanChars_no_tok_of (s p : List Char) (hp : p ≠ [])
    (hnl : '\n' ∉ p) (hsp : ' ' ∉ p)
    (hbase : ¬ p <:+: applyReplacements s) : ¬ p <:+: cleanChars s := by
  intro h
  rw [cleanChars_eq_join] at h
  obtain ⟨l, hlm, hpl⟩ := infix_joinChar '\n' p hp hnl _ h
  obtain ⟨m, hmem, rfl⟩ := List.mem_map.mp hlm
  have h2 : p <:+: collapseSpaces m := hpl.trans (stripChars_infix_self _)
  rw [collapseSpaces] at h2
  have h3 : p <:+: m := infix_of_loopReplace [' ', ' '] [' '] (by simp) p hp
    (by
      intro ch hch
      have hc : ch = ' ' := by simpa using hch
      subst hc
      exact hsp) _ _ h2
  have h4 : p <:+: collapseNewlines (applyReplacements s) :=
    h3.trans (pySplitChars_infix_of_mem '\n' _ m hmem)
  rw [collapseNewlines] at h4
  have h5 := infix_of_loopReplace ['\n', '\n', '\n'] ['\n', '\n'] (by simp) p hp
    (by
      intro ch hch
      have hc : ch = '\n' := by simpa using hch
      subst hc
      exact hnl) _ _ h4
  exact hbase h5

/-- The five killable tokens are absent from every `clean_text` output. -/
theorem cleanChars_no_tok (s : List Char) :
    ¬ ['_', 'x', '0', '0', '0', 'A'] <:+: cleanChars s ∧
    ¬ ['_', 'x', '0', '0', '0', 'D'] <:+: cleanChars s ∧
    ¬ ['_', 'x', '0', '0', '0', 'B'] <:+: cleanChars s ∧
    ¬ ['_', 'x', '0', '0', '0', '9'] <:+: cleanChars s ∧
    ¬ ['\x0B'] <:+: cleanChars s := by
  obtain ⟨a1, a2, a3, a4, a5⟩ := applyReplacements_no_tok s
  exact ⟨cleanChars_no_tok_of s _ (by simp) (by decide) (by decide) a1,
    cleanChars_no_tok_of s _ (by simp) (by decide) (by decide) a2,
    cleanChars_no_tok_of s _ (by simp) (by decide) (by decide) a3,
    cleanChars_no_tok_of s _ (by simp) (by decide) (by decide) a4,
    cleanChars_no_tok_of s _ (by simp) (by decide) (by decide) a5⟩

/-- `'\r\n'` is absent from every `clean_text` output (line stripping
removes trailing carriage returns). -/
theorem cleanChars_no_crlf (s : List Char) :
    ¬ ['\r', '\n'] <:+: cleanChars s := by
  rw [cleanChars_eq_join]
  apply no_crlf_joinChar
  · intro l hl
    obtain ⟨m, hm, rfl⟩ := List.mem_map.mp hl
    exact cleanLine_no_nl m (pySplitChars_sep_notin '\n' _ m hm)
  · intro l hl x hx
    obtain ⟨m, hm, rfl⟩ := List.mem_map.mp hl
    exact cleanLine_last_not_ws m x hx

/-- A second `clean_text` pass only collapses the newline runs the first
pass created by blanking whitespace-only lines. -/
theorem cleanChars_cleanChars (s : List Char) :
    cleanChars (cleanChars s) = collapseNewlines (cleanChars s) := by
  obtain ⟨a1, a2, a3, a4, a5⟩ := cleanChars_no_tok s
  have hrepl : applyReplacements (cleanChars s) = cleanChars s :=
    applyReplacements_id _ a1 a2 a3 a4 a5 (cleanChars_no_crlf s)
  have hpieces : ∀ ℓ ∈ pySplitChars '\n' (collapseNewlines (cleanChars s)),
      cleanLine ℓ = ℓ := by
    intro ℓ hm
    rcases mem_splitNL_collapseNewlines (cleanChars s) ℓ hm with h1 | h1
    · rw [splitNL_cleanChars] at h1
      obtain ⟨m, _, rfl⟩ := List.mem_map.mp h1
      exact cleanLine_idem m
    · subst h1
      rfl
  show joinChar '\n' ((pySplitChars '\n'
    (collapseNewlines (applyReplacements (cleanChars s)))).map cleanLine) = _
  rw [hrepl, map_id_of cleanLine _ hpieces, joinChar_pySplitChars]

/-- A third pass changes nothing: the result of the second pass is a
`clean_text` fixed point. -/
theorem cleanChars_fixed_collapseNewlines (s : List Char) :
    cleanChars (collapseNewlines (cleanChars s)) = collapseNewlines (cleanChars s) := by
  obtain ⟨a1, a2, a3, a4, a5⟩ := cleanChars_no_tok s
  have hT : ∀ p : List Char, p ≠ [] → '\n' ∉ p →
      ¬ p <:+: cleanChars s → ¬ p <:+: collapseNewlines (cleanChars s) := by
    intro p hp hnl hbase h
    rw [collapseNewlines] at h
    exact hbase (infix_of_loopReplace ['\n', '\n', '\n'] ['\n', '\n'] (by simp) p hp
      (by
        intro ch hch
        have hc : ch = '\n' := by simpa using hch
        subst hc
        exact hnl) _ _ h)
  have hu_pieces : ∀ ℓ ∈ pySplitChars '\n' (collapseNewlines (cleanChars s)),
      '\n' ∉ ℓ ∧ (∀ x, ℓ.getLast? = some x → isPyWs x = false) ∧ cleanLine ℓ = ℓ := by
    intro ℓ hm
    rcases mem_splitNL_collapseNewlines (cleanChars s) ℓ hm with h1 | h1
    · rw [splitNL_cleanChars] at h1
      obtain ⟨m, hmm, rfl⟩ := List.mem_map.mp h1
      exact ⟨cleanLine_no_nl m (pySplitChars_sep_notin '\n' _ m hmm),
        fun x hx => cleanLine_last_not_ws m x hx, cleanLine_idem m⟩
    · subst h1
      refine ⟨by simp, ?_, rfl⟩
      intro x hx
      simp at hx
  have hcrlf : ¬ ['\r', '\n'] <:+: collapseNewlines (cleanChars s) := by
    intro h
    rw [← joinChar_pySplitChars '\n' (collapseNewlines (cleanChars s))] at h
    exact no_crlf_joinChar _ (fun l hl => (hu_pieces l hl).1)
      (fun l hl => (hu_pieces l hl).2.1) h
  have hrepl : applyReplacements (collapseNewlines (cleanChars s)) =
      collapseNewlines (cleanChars s) :=
    applyReplacements_id _ (hT _ (by simp) (by decide) a1)
      (hT _ (by simp) (by decide) a2) (hT _ (by simp) (by decide) a3)
      (hT _ (by simp) (by decide) a4) (hT _ (by simp) (by decide) a5) hcrlf
  have hnp : containsPat ['\n', '\n', '\n'] (collapseNewlines (cleanChars s)) = false := by
    rw [collapseNewlines]
    exact loopReplace_no_pattern _ _ (by simp) (by simp) _ _ (Nat.le_refl _)
  have hcoll : collapseNewlines (collapseNewlines (cleanChars s)) =
      collapseNewlines (cleanChars s) := by
    rw [collapseNewlines]
    exact loopReplace_id _ _ _ _ hnp
  show joinChar '\n' ((pySplitChars '\n'
    (collapseNewlines (applyReplacements (collapseNewlines (cleanChars s))))).map
      cleanLine) = _
  rw [hrepl, hcoll, map_id_of cleanLine _ (fun ℓ h => (hu_pieces ℓ h).2.2),
    joinChar_pySplitChars]

/-- C8 (amended): `clean_text` is not idempotent, but one extra
application reaches a fixed point: `clean_text ∘ clean_text` is
idempotent.  (A whitespace-only line is stripped to empty, which can
create a fresh run of three newlines that only the next pass collapses;
nothing else changes on a second pass.) -/
theorem clean_text_compose_idempotent (s : String) :
    clean_text (clean_text (clean_text s)) = clean_text (clean_text s) := by
  show String.mk (cleanChars (cleanChars (cleanChars s.data))) =
    String.mk (cleanChars (cleanChars s.data))
  refine congrArg String.mk ?_
  have h1 : cleanChars (cleanChars s.data) = collapseNewlines (cleanChars s.data) :=
    cleanChars_cleanChars s.data
  calc cleanChars (cleanChars (cleanChars s.data))
      = cleanChars (collapseNewlines (cleanChars s.data)) := by rw [h1]
    _ = collapseNewlines (cleanChars s.data) := cleanChars_fixed_collapseNewlines s.data
    _ = cleanChars (cleanChars s.data) := h1.symm

/-- C8 (counterexample): `clean_text` itself is not idempotent.  On
`"\n\n \n"` the whitespace-only third line is stripped to empty, leaving
three consecutive newlines that only a second application collapses. -/
theorem clean_text_not_idempotent :
    clean_text "\n\n \n" = "\n\n\n" ∧
    clean_text (clean_text "\n\n \n") = "\n\n" ∧
    clean_text (clean_text "\n\n \n") ≠ clean_text "\n\n \n" := by
  have e1 : cleanChars ['\n', '\n', ' ', '\n'] = ['\n', '\n', '\n'] := by
    have h1 : applyReplacements ['\n', '\n', ' ', '\n'] = ['\n', '\n', ' ', '\n'] :=
      applyReplacements_id _ (not_infix_of_containsPat_false (by decide))
        (not_infix_of_containsPat_false (by decide))
        (not_infix_of_containsPat_false (by decide))
        (not_infix_of_containsPat_false (by decide))
        (not_infix_of_containsPat_false (by decide))
        (not_infix_of_containsPat_false (by decide))
    have h2 : collapseNewlines ['\n', '\n', ' ', '\n'] = ['\n', '\n', ' ', '\n'] := by
      rw [collapseNewlines]
      exact loopReplace_id _ _ _ _ (by decide)
    show joinChar '\n' ((pySplitChars '\n'
      (collapseNewlines (applyReplacements ['\n', '\n', ' ', '\n']))).map cleanLine) = _
    rw [h1, h2]
    rfl
  have e2 : cleanChars ['\n', '\n', '\n'] = ['\n', '\n'] := by
    have h1 : applyReplacements ['\n', '\n', '\n'] = ['\n', '\n', '\n'] :=
      applyReplacements_id _ (not_infix_of_containsPat_false (by decide))
        (not_infix_of_containsPat_false (by decide))
        (not_infix_of_containsPat_false (by decide))
        (not_infix_of_containsPat_false (by decide))
        (not_infix_of_containsPat_false (by decide))
        (not_infix_of_containsPat_false (by decide))
    have hr : replacePat ['\n', '\n', '\n'] ['\n', '\n'] ['\n', '\n', '\n'] =
        ['\n', '\n'] := by
      have hcond : (['\n', '\n', '\n'] : List Char) ≠ [] ∧
          (['\n', '\n', '\n'] : List Char).isPrefixOf ['\n', '\n', '\n'] = true :=
        ⟨by simp, by decide⟩
      rw [replacePat, dif_pos hcond,
        show List.drop ((['\n', '\n', '\n'] : List Char).length - 1)
          (['\n', '\n'] : List Char) = ([] : List Char) from rfl,
        replacePat]
      simp
    have h2 : collapseNewlines ['\n', '\n', '\n'] = ['\n', '\n'] := by
      rw [collapseNewlines]
      have hl : (['\n', '\n', '\n'] : List Char).length = 2 + 1 := rfl
      rw [hl, loopReplace, if_pos (by decide), hr]
      exact loopReplace_id _ _ _ _ (by decide)
    show joinChar '\n' ((pySplitChars '\n'
      (collapseNewlines (applyReplacements ['\n', '\n', '\n']))).map cleanLine) = _
    rw [h1, h2]
    rfl
  have p1 : clean_text "\n\n \n" = "\n\n\n" := by
    show String.mk (cleanChars ("\n\n \n").data) = "\n\n\n"
    rw [show ("\n\n \n").data = ['\n', '\n', ' ', '\n'] from rfl, e1]
  have p2 : clean_text (clean_text "\n\n \n") = "\n\n" := by
    rw [p1]
    show String.mk (cleanChars ("\n\n\n").data) = "\n\n"
    rw [show ("\n\n\n").data = ['\n', '\n', '\n'] from rfl, e2]
  refine ⟨p1, p2, ?_⟩
  rw [p2, p1]
  decide

end LeadScore
